import Mathlib

/-!
# container-up: the migration procedure of `main.go`

A shallow embedding of `main.go`.  The Docker daemon is an external collaborator:
it is a record of step functions over an arbitrary daemon state `σ`
(`Client σ`).  Every call the program issues is recorded, with the response it
got, in the `trace` of the `World` the program runs in, so that statements
about "the calls issued by a run" are statements about that list.

Verbose diagnostics (`vPrintf`, `vPrintln`, `encode`) only write to standard
output and are left out; `printErr` is kept as an append to `stderr`.
-/

namespace ContainerUp

/-! ## Go's `path/filepath` (Unix), as used by `exec` and `copyFileToContainer` -/

namespace filepath

/-- Unix path separator, `filepath.Separator`. -/
def Separator : Char := '/'

/-- Unix `os.IsPathSeparator`. -/
def IsPathSeparator (c : Char) : Bool := c == Separator

/-- The backtracking of `Clean` on a `..` element.  The buffer is kept reversed
(head = last byte written).  Go: `out.w--; for out.w > dotdot &&
!os.IsPathSeparator(out.index(out.w)) { out.w-- }`. -/
def backtrack : List Char → Nat → List Char
  | [], _ => []
  | c :: t, dotdot =>
    if t.length > dotdot && !IsPathSeparator c then backtrack t dotdot else t

/-- The main loop of `Clean`: `rest` is `path[r:]`, `rout` the reversed output
buffer, `dotdot` the index where `..` must stop.  Every iteration consumes at
least one byte of `rest`, so `fuel = len(path)` iterations are enough. -/
def cleanLoop (rooted : Bool) : Nat → List Char → List Char → Nat → List Char
  | 0, _, rout, _ => rout
  | fuel + 1, rest, rout, dotdot =>
    match rest with
    | [] => rout
    | c :: rest1 =>
      if IsPathSeparator c then
        -- empty path element
        cleanLoop rooted fuel rest1 rout dotdot
      else if c == '.' && (rest1.isEmpty || (rest1.head?.map IsPathSeparator).getD false) then
        -- . element
        cleanLoop rooted fuel rest1 rout dotdot
      else if c == '.' && rest1.head? == some '.'
          && (rest1.tail.isEmpty || (rest1.tail.head?.map IsPathSeparator).getD false) then
        -- .. element: remove to last separator
        if rout.length > dotdot then
          cleanLoop rooted fuel rest1.tail (backtrack rout dotdot) dotdot
        else if !rooted then
          let rout1 := if rout.length > 0 then Separator :: rout else rout
          let rout2 := '.' :: '.' :: rout1
          cleanLoop rooted fuel rest1.tail rout2 rout2.length
        else
          cleanLoop rooted fuel rest1.tail rout dotdot
      else
        -- real path element: add slash if needed, then copy the element
        let rout1 :=
          if (rooted && rout.length != 1) || (!rooted && rout.length != 0)
          then Separator :: rout else rout
        let elem := (c :: rest1).takeWhile (fun x => !IsPathSeparator x)
        cleanLoop rooted fuel ((c :: rest1).dropWhile (fun x => !IsPathSeparator x))
          (elem.reverse ++ rout1) dotdot

/-- Go's `filepath.Clean` on Unix (no volume name). -/
def Clean (path : String) : String :=
  match path.data with
  | [] => "."
  | c :: rest =>
    let rooted := IsPathSeparator c
    let out :=
      if rooted then cleanLoop rooted path.data.length rest [Separator] 1
      else cleanLoop rooted path.data.length (c :: rest) [] 0
    -- Turn empty string into "."
    if out.length == 0 then "." else String.mk out.reverse

/-- Go's `filepath.Dir` on Unix: everything up to and including the last
separator, cleaned. -/
def Dir (path : String) : String :=
  Clean (String.mk (path.data.reverse.dropWhile (fun x => !IsPathSeparator x)).reverse)

end filepath

/-! ## Docker API types (the fields the program touches, and their neighbours) -/

/-- A Go `error` value, kept as its message. -/
abbrev Err := String

/-- An `io.ReadCloser` handed out by the daemon: an open stream, known by its handle. -/
abbrev ReadCloser := Nat

/-- Docker `container.Config`. -/
structure Config where
  Hostname : String
  Domainname : String
  User : String
  AttachStdin : Bool
  AttachStdout : Bool
  AttachStderr : Bool
  ExposedPorts : List String
  Tty : Bool
  OpenStdin : Bool
  StdinOnce : Bool
  Env : List String
  Cmd : List String
  ArgsEscaped : Bool
  Image : String
  Volumes : List String
  WorkingDir : String
  Entrypoint : List String
  NetworkDisabled : Bool
  MacAddress : String
  OnBuild : List String
  Labels : List (String × String)
  StopSignal : String
  StopTimeout : Option Int
  Shell : List String
  deriving DecidableEq, Inhabited

/-- Docker `container.HostConfig` (a selection of its fields; the program only
ever passes the value along whole). -/
structure HostConfig where
  Binds : List String
  NetworkMode : String
  PortBindings : List (String × String)
  RestartPolicy : String
  AutoRemove : Bool
  VolumesFrom : List String
  Privileged : Bool
  Memory : Int
  NanoCPUs : Int
  deriving DecidableEq, Inhabited

/-- Docker `network.EndpointSettings`. -/
structure EndpointSettings where
  Links : List String
  Aliases : List String
  NetworkID : String
  EndpointID : String
  Gateway : String
  IPAddress : String
  MacAddress : String
  deriving DecidableEq, Inhabited

/-- Docker `types.NetworkSettings`: `Networks map[string]*EndpointSettings`. -/
structure NetworkSettings where
  Networks : List (String × EndpointSettings)
  deriving DecidableEq, Inhabited

/-- Docker `network.NetworkingConfig`. -/
structure NetworkingConfig where
  EndpointsConfig : List (String × EndpointSettings)
  deriving DecidableEq, Inhabited

/-- Docker `types.ContainerJSONBase` (identity, state and host configuration). -/
structure ContainerJSONBase where
  ID : String
  Name : String
  Image : String
  Running : Bool
  HostConfig : HostConfig
  deriving DecidableEq, Inhabited

/-- Docker `types.ContainerJSON`, the result of an inspect.  The three parts are
pointers in Go; the daemon always fills them in, and they are modelled as
present. -/
structure ContainerJSON where
  ContainerJSONBase : ContainerJSONBase
  Config : Config
  NetworkSettings : NetworkSettings
  deriving DecidableEq, Inhabited

/-- Docker `container.ContainerCreateCreatedBody`. -/
structure ContainerCreateCreatedBody where
  ID : String
  Warnings : List String
  deriving DecidableEq, Inhabited

/-! ## The program's constants and options -/

def newContainerSuffix : String := "_newContainer"

def oldContainerSuffix : String := "_oldContainer"

structure posArgs where
  ContainerID : String
  deriving DecidableEq, Inhabited

structure options where
  CopyFiles : List String
  Image : String
  RemoveOldContainer : Bool
  Verbose : Bool
  PosArgs : posArgs
  deriving DecidableEq, Inhabited

/-- What `flags.Parse` can return as an error: a `*flags.Error` (whose `Type`
may be `ErrHelp`) or any other error. -/
inductive ParseError where
  | flagsError (isErrHelp : Bool) (msg : Err)
  | other (msg : Err)
  deriving DecidableEq

/-- Message of a parse error, as printed. -/
def ParseError.msg : ParseError → Err
  | .flagsError _ m => m
  | .other m => m

/-! ## The daemon and the recorded calls -/

/-- The eight calls of the Docker client that the program uses. -/
inductive Call where
  | ContainerInspect (cid : String)
  | CopyFromContainer (cid : String) (srcPath : String)
  | ContainerCreate (config : Config) (hostConfig : HostConfig)
      (networkingConfig : NetworkingConfig) (containerName : String)
  | ContainerStop (cid : String)
  | ContainerStart (cid : String)
  | CopyToContainer (cid : String) (dstPath : String) (content : ReadCloser)
  | ContainerRename (cid : String) (newContainerName : String)
  | ContainerRemove (cid : String)
  deriving DecidableEq

/-- What a call answered. -/
inductive Resp where
  | error (e : Err)
  | done
  | inspected (cj : ContainerJSON)
  | stream (r : ReadCloser)
  | created (body : ContainerCreateCreatedBody)
  deriving DecidableEq

/-- A call together with its answer. -/
structure Event where
  call : Call
  resp : Resp
  deriving DecidableEq

/-- The call returned an error. -/
def Event.failed (ev : Event) : Bool :=
  match ev.resp with
  | .error _ => true
  | _ => false

/-- The Docker client: each operation takes the daemon state and returns its
result (value or error) with the next daemon state. -/
structure Client (σ : Type) where
  ContainerInspect : σ → String → Except Err ContainerJSON × σ
  CopyFromContainer : σ → String → String → Except Err ReadCloser × σ
  ContainerCreate : σ → Config → HostConfig → NetworkingConfig → String →
    Except Err ContainerCreateCreatedBody × σ
  ContainerStop : σ → String → Option Err × σ
  ContainerStart : σ → String → Option Err × σ
  CopyToContainer : σ → String → String → ReadCloser → Option Err × σ
  ContainerRename : σ → String → String → Option Err × σ
  ContainerRemove : σ → String → Option Err × σ

/-- Everything outside the program: the daemon state, the calls issued so far
(oldest first), what was written to standard error, and the streams on which
`Close` was called so far (oldest first, one entry per call of `Close`). -/
structure World (σ : Type) where
  daemon : σ
  trace : List Event
  stderr : List Err
  closed : List ReadCloser

/-- Response recorded for a call that returns only an `error`. -/
def respOfErr : Option Err → Resp
  | some e => .error e
  | none => .done

/-! ## The functions of `main.go` -/

def printErr {σ : Type} (w : World σ) (err : Err) : World σ :=
  { w with stderr := w.stderr ++ [err] }

def inspect {σ : Type} (cli : Client σ) (w : World σ) (cid : String) :
    Except Err ContainerJSON × World σ :=
  match cli.ContainerInspect w.daemon cid with
  | (.error err, d) =>
    (.error err, { w with daemon := d, trace := w.trace ++ [⟨.ContainerInspect cid, .error err⟩] })
  | (.ok cj, d) =>
    (.ok cj, { w with daemon := d, trace := w.trace ++ [⟨.ContainerInspect cid, .inspected cj⟩] })

def create {σ : Type} (cli : Client σ) (opts : options) (w : World σ) (info : ContainerJSON) :
    Except Err ContainerCreateCreatedBody × World σ :=
  let containerConfig :=
    if opts.Image != "" then { info.Config with Image := opts.Image } else info.Config
  let hostConfig := info.ContainerJSONBase.HostConfig
  let networkingConfig : NetworkingConfig := { EndpointsConfig := info.NetworkSettings.Networks }
  let name := info.ContainerJSONBase.Name ++ newContainerSuffix
  let call := Call.ContainerCreate containerConfig hostConfig networkingConfig name
  match cli.ContainerCreate w.daemon containerConfig hostConfig networkingConfig name with
  | (.error err, d) => (.error err, { w with daemon := d, trace := w.trace ++ [⟨call, .error err⟩] })
  | (.ok body, d) => (.ok body, { w with daemon := d, trace := w.trace ++ [⟨call, .created body⟩] })

def copyFileFromContainer {σ : Type} (cli : Client σ) (w : World σ) (cid fpath : String) :
    Except Err ReadCloser × World σ :=
  match cli.CopyFromContainer w.daemon cid fpath with
  | (.error err, d) =>
    (.error err,
      { w with daemon := d, trace := w.trace ++ [⟨.CopyFromContainer cid fpath, .error err⟩] })
  | (.ok r, d) =>
    (.ok r, { w with daemon := d, trace := w.trace ++ [⟨.CopyFromContainer cid fpath, .stream r⟩] })

/-- The function `copyFileToContainer`.  The Docker client sends `r` as the body of
its HTTP request, and Go's HTTP transport closes a request body once the
request was made, whatever the outcome: the call closes `r` once. -/
def copyFileToContainer {σ : Type} (cli : Client σ) (w : World σ) (cid fpath : String)
    (r : ReadCloser) : Option Err × World σ :=
  match cli.CopyToContainer w.daemon cid (filepath.Dir fpath) r with
  | (err, d) =>
    (err, { w with daemon := d,
                   trace := w.trace ++ [⟨.CopyToContainer cid (filepath.Dir fpath) r, respOfErr err⟩],
                   closed := w.closed ++ [r] })

def stop {σ : Type} (cli : Client σ) (w : World σ) (cid : String) : Option Err × World σ :=
  match cli.ContainerStop w.daemon cid with
  | (err, d) =>
    (err, { w with daemon := d, trace := w.trace ++ [⟨.ContainerStop cid, respOfErr err⟩] })

def start {σ : Type} (cli : Client σ) (w : World σ) (cid : String) : Option Err × World σ :=
  match cli.ContainerStart w.daemon cid with
  | (err, d) =>
    (err, { w with daemon := d, trace := w.trace ++ [⟨.ContainerStart cid, respOfErr err⟩] })

def rename {σ : Type} (cli : Client σ) (w : World σ) (name : String) : Option Err × World σ :=
  match cli.ContainerRename w.daemon name (name ++ oldContainerSuffix) with
  | (some err, d) =>
    (some err,
      { w with daemon := d,
               trace := w.trace ++ [⟨.ContainerRename name (name ++ oldContainerSuffix), .error err⟩] })
  | (none, d) =>
    let w1 : World σ :=
      { w with daemon := d,
               trace := w.trace ++ [⟨.ContainerRename name (name ++ oldContainerSuffix), .done⟩] }
    match cli.ContainerRename w1.daemon (name ++ newContainerSuffix) name with
    | (err, d2) =>
      (err, { w1 with daemon := d2,
                      trace := w1.trace ++
                        [⟨.ContainerRename (name ++ newContainerSuffix) name, respOfErr err⟩] })

def remove {σ : Type} (cli : Client σ) (w : World σ) (name : String) : Option Err × World σ :=
  match cli.ContainerRemove w.daemon (name ++ oldContainerSuffix) with
  | (err, d) =>
    (err, { w with daemon := d,
                   trace := w.trace ++ [⟨.ContainerRemove (name ++ oldContainerSuffix), respOfErr err⟩] })

/-- The loop `for _, file := range opts.CopyFiles` of `exec`: the streams are
appended to `contents` in order; the first error ends the loop (and `exec`). -/
def extractLoop {σ : Type} (cli : Client σ) (cid : String) :
    List String → World σ → List ReadCloser → Except Err (List ReadCloser) × World σ
  | [], w, contents => (.ok contents, w)
  | file :: files, w, contents =>
    match copyFileFromContainer cli w cid file with
    | (.error err, w1) => (.error err, w1)
    | (.ok r, w1) => extractLoop cli cid files w1 (contents ++ [r])

/-- The loop `for i, r := range contents` of `exec`, from index `i` on.
`opts.CopyFiles[i]` is always in range, as `contents` has one entry per copied
file (`extractLoop_cases`); the default of `getD` is never used. -/
def injectLoop {σ : Type} (cli : Client σ) (opts : options) (cid : String) :
    Nat → List ReadCloser → World σ → Option Err × World σ
  | _, [], w => (none, w)
  | i, r :: rs, w =>
    match copyFileToContainer cli w cid (filepath.Dir (opts.CopyFiles.getD i "")) r with
    | (some err, w1) => (some err, w1)
    | (none, w1) => injectLoop cli opts cid (i + 1) rs w1

/-- The body of `exec` once the options are parsed and the client is built
(lines 80 to 123). -/
def execBody {σ : Type} (cli : Client σ) (opts : options) (w : World σ) : Int × World σ :=
  match inspect cli w opts.PosArgs.ContainerID with
  | (.error err, w1) => (1, printErr w1 err)
  | (.ok info, w1) =>
    match extractLoop cli opts.PosArgs.ContainerID opts.CopyFiles w1 [] with
    | (.error err, w2) => (1, printErr w2 err)
    | (.ok contents, w2) =>
      match create cli opts w2 info with
      | (.error err, w3) => (1, printErr w3 err)
      | (.ok cccBody, w3) =>
        match stop cli w3 opts.PosArgs.ContainerID with
        | (some err, w4) => (1, printErr w4 err)
        | (none, w4) =>
          match start cli w4 cccBody.ID with
          | (some err, w5) => (1, printErr w5 err)
          | (none, w5) =>
            match injectLoop cli opts cccBody.ID 0 contents w5 with
            | (some err, w6) => (1, printErr w6 err)
            | (none, w6) =>
              match rename cli w6 opts.PosArgs.ContainerID with
              | (some err, w7) => (1, printErr w7 err)
              | (none, w7) =>
                if opts.RemoveOldContainer then
                  match remove cli w7 opts.PosArgs.ContainerID with
                  | (some err, w8) => (1, printErr w8 err)
                  | (none, w8) => (0, w8)
                else (0, w7)

/-- The function `exec`: `parsed` is what `flags.Parse(&opts)` returned and
`newEnvClient` what `docker.NewEnvClient()` returned. -/
def exec {σ : Type} (parsed : Except ParseError options) (newEnvClient : Except Err (Client σ))
    (w : World σ) : Int × World σ :=
  match parsed with
  | .error (.flagsError true _) => (0, w)
  | .error err => (1, printErr w err.msg)
  | .ok opts =>
    match newEnvClient with
    | .error err => (1, printErr w err)
    | .ok cli => execBody cli opts w

/-! ## A reference daemon

A small model of the Docker daemon, used to run the program on concrete
inputs and to study repeated runs: a list of containers whose names are unique.
As in Docker, a stored name carries a leading slash, a container is addressed
by its ID or by its name (with or without the slash), and an operation fails
only when the container addressed does not exist, when a name is already
taken, when a path to copy out is missing, or when a running container is to
be removed.  File contents are not modelled: which paths are missing in which
container is a table of the state, and a copy-in succeeds on every existing
container. -/

namespace Daemon

/-- One container of the reference daemon. -/
structure Container where
  ID : String
  Name : String
  Running : Bool
  Config : Config
  HostConfig : HostConfig
  Networks : List (String × EndpointSettings)
  deriving DecidableEq, Inhabited

/-- The container, stopped. -/
def Container.stopped (c : Container) : Container := { c with Running := false }

/-- The container, started. -/
def Container.started (c : Container) : Container := { c with Running := true }

/-- The container under another name. -/
def Container.renamed (c : Container) (name : String) : Container := { c with Name := name }

/-- State of the reference daemon.  File contents are not modelled; in their place
`missing` lists the pairs of a container ID and a path for which a copy-out
finds no file. -/
structure State where
  containers : List Container
  nextID : Nat
  nextStream : Nat
  missing : List (String × String)
  deriving DecidableEq, Inhabited

/-- The stored form of a name: with a leading slash. -/
def normName (n : String) : String :=
  if n.data.head? = some '/' then n else "/" ++ n

/-- The ID given to the `n`-th container created: fresh strings, `f`, `ff`, ... -/
def genID (n : Nat) : String := String.mk (List.replicate (n + 1) 'f')

/-- Resolve a reference to a container: by ID first, then by name. -/
def find (d : State) (key : String) : Option Container :=
  match d.containers.find? (fun c => c.ID == key) with
  | some c => some c
  | none => d.containers.find? (fun c => c.Name == normName key)

/-- Is the name taken? -/
def nameTaken (d : State) (name : String) : Bool :=
  d.containers.any (fun c => c.Name == normName name)

/-- Apply `f` to the container with the given ID. -/
def modify (d : State) (id : String) (f : Container → Container) : State :=
  { d with containers := d.containers.map (fun c => if c.ID == id then f c else c) }

def noSuchContainer (key : String) : Err := "No such container: " ++ key

def nameConflict (name : String) : Err :=
  "Conflict. The container name " ++ normName name ++ " is already in use"

/-- Modelled from the spec: the runtime's inspect, which is absent from the repository;
it fails with not-found when no container matches and has no side effect. -/
def ContainerInspect (d : State) (cid : String) : Except Err ContainerJSON × State :=
  match find d cid with
  | none => (.error (noSuchContainer cid), d)
  | some c =>
    (.ok { ContainerJSONBase :=
             { ID := c.ID, Name := c.Name, Image := c.Config.Image, Running := c.Running,
               HostConfig := c.HostConfig },
           Config := c.Config,
           NetworkSettings := { Networks := c.Networks } }, d)

/-- The path can be copied out of the container with the given ID. -/
def readable (d : State) (id : String) (srcPath : String) : Prop := (id, srcPath) ∉ d.missing

instance (d : State) (id : String) (srcPath : String) : Decidable (readable d id srcPath) := by
  unfold readable; infer_instance

def noSuchFile (srcPath : String) : Err :=
  "Could not find the file " ++ srcPath ++ " in container"

/-- Modelled from the spec: the runtime's copy-out, which is absent from the repository;
it fails with not-found when no container matches, with file-not-found for a
missing path, and otherwise opens a new stream. -/
def CopyFromContainer (d : State) (cid : String) (srcPath : String) :
    Except Err ReadCloser × State :=
  match find d cid with
  | none => (.error (noSuchContainer cid), d)
  | some c =>
    if (c.ID, srcPath) ∈ d.missing then (.error (noSuchFile srcPath), d)
    else (.ok d.nextStream, { d with nextStream := d.nextStream + 1 })

/-- Modelled from the spec: the runtime's create, which is absent from the repository;
it fails with a name conflict when the name is taken, and otherwise adds a
container, not yet started, under a fresh ID. -/
def ContainerCreate (d : State) (config : Config) (hostConfig : HostConfig)
    (networkingConfig : NetworkingConfig) (containerName : String) :
    Except Err ContainerCreateCreatedBody × State :=
  if nameTaken d containerName then (.error (nameConflict containerName), d)
  else
    (.ok { ID := genID d.nextID, Warnings := [] },
     { d with
       containers := d.containers ++
         [{ ID := genID d.nextID, Name := normName containerName, Running := false,
            Config := config, HostConfig := hostConfig,
            Networks := networkingConfig.EndpointsConfig }],
       nextID := d.nextID + 1 })

/-- Modelled from the spec: the runtime's stop, which is absent from the repository;
it fails with not-found, and otherwise leaves the container stopped. -/
def ContainerStop (d : State) (cid : String) : Option Err × State :=
  match find d cid with
  | none => (some (noSuchContainer cid), d)
  | some c => (none, modify d c.ID Container.stopped)

/-- Modelled from the spec: the runtime's start, which is absent from the repository;
it fails with not-found, and otherwise leaves the container running. -/
def ContainerStart (d : State) (cid : String) : Option Err × State :=
  match find d cid with
  | none => (some (noSuchContainer cid), d)
  | some c => (none, modify d c.ID Container.started)

/-- Modelled from the spec: the runtime's copy-in, which is absent from the repository;
it succeeds on every existing container (file contents are not modelled). -/
def CopyToContainer (d : State) (cid : String) (_dstPath : String) (_content : ReadCloser) :
    Option Err × State :=
  match find d cid with
  | none => (some (noSuchContainer cid), d)
  | some _ => (none, d)

/-- Modelled from the spec: the runtime's rename, which is absent from the repository;
it fails with not-found, or with a name conflict when the new name is taken. -/
def ContainerRename (d : State) (cid : String) (newContainerName : String) :
    Option Err × State :=
  match find d cid with
  | none => (some (noSuchContainer cid), d)
  | some c =>
    if nameTaken d newContainerName then (some (nameConflict newContainerName), d)
    else (none, modify d c.ID (fun c => c.renamed (normName newContainerName)))

/-- Modelled from the spec: the runtime's remove, which is absent from the repository;
it fails with not-found, and, as Docker does without `force`, on a running
container. -/
def ContainerRemove (d : State) (cid : String) : Option Err × State :=
  match find d cid with
  | none => (some (noSuchContainer cid), d)
  | some c =>
    if c.Running then (some ("You cannot remove a running container " ++ c.ID), d)
    else (none, { d with containers := d.containers.filter (fun c1 => c1.ID != c.ID) })

/-- Modelled from the spec: the container runtime client, the external collaborator
of the program, as the reference daemon provides it. -/
def client : Client State where
  ContainerInspect := ContainerInspect
  CopyFromContainer := CopyFromContainer
  ContainerCreate := ContainerCreate
  ContainerStop := ContainerStop
  ContainerStart := ContainerStart
  CopyToContainer := CopyToContainer
  ContainerRename := ContainerRename
  ContainerRemove := ContainerRemove

end Daemon

/-! ## Sample inputs -/

/-- Configuration of the sample container `web`. -/
def sampleConfig : Config :=
  { (default : Config) with Image := "web:v1", Cmd := ["nginx"], Env := ["MODE=prod"] }

/-- The sample container `web`, running, with ID `4f2a9c01`. -/
def sampleWeb : Daemon.Container :=
  { ID := "4f2a9c01", Name := "/web", Running := true, Config := sampleConfig,
    HostConfig := { (default : HostConfig) with RestartPolicy := "always" },
    Networks := [("bridge", { (default : EndpointSettings) with IPAddress := "172.17.0.2" })] }

/-- A daemon running only `web`. -/
def sampleDaemon : Daemon.State :=
  { containers := [sampleWeb], nextID := 0, nextStream := 0, missing := [] }

/-- A daemon on which an earlier run was stranded: `web_newContainer` is still there. -/
def strandedDaemon : Daemon.State :=
  { containers := [sampleWeb, { sampleWeb with ID := "77aa", Name := "/web_newContainer",
                                               Running := false }],
    nextID := 0, nextStream := 0, missing := [] }

/-- A daemon running `web`, where `/etc/app.conf` was written into `web` after it
was started and is no part of any image: the container created next, `f`,
will lack the file unless it is copied to that path. -/
def bareImageDaemon : Daemon.State :=
  { sampleDaemon with missing := [("f", "/etc/app.conf")] }

/-- A fresh world around a daemon state. -/
def World.init {σ : Type} (d : σ) : World σ :=
  { daemon := d, trace := [], stderr := [], closed := [] }

/-- The options of `container-up -f /etc/app.conf -i web:v2 web`. -/
def sampleOpts : options :=
  { CopyFiles := ["/etc/app.conf"], Image := "web:v2", RemoveOldContainer := false,
    Verbose := false, PosArgs := { ContainerID := "web" } }

/-- What inspecting the sample `web` answers. -/
def sampleInfo : ContainerJSON :=
  { ContainerJSONBase :=
      { ID := "4f2a9c01", Name := "/web", Image := "web:v1", Running := true,
        HostConfig := sampleWeb.HostConfig },
    Config := sampleConfig,
    NetworkSettings := { Networks := sampleWeb.Networks } }

/-- The sample options with `--rm`. -/
def sampleOptsRm : options := { sampleOpts with RemoveOldContainer := true }

/-- The sample options, with the container given by its ID instead of its name. -/
def sampleOptsByID : options :=
  { sampleOpts with PosArgs := { ContainerID := "4f2a9c01" } }

/-! ## Vocabulary for statements about a run -/

/-- No call of the list returned an error. -/
def allOk (tr : List Event) : Prop := ∀ ev ∈ tr, ev.failed = false

/-- The step of the migration a call belongs to. -/
def Call.step : Call → Nat
  | .ContainerInspect _ => 1
  | .CopyFromContainer _ _ => 2
  | .ContainerCreate _ _ _ _ => 3
  | .ContainerStop _ => 4
  | .ContainerStart _ => 5
  | .CopyToContainer _ _ _ => 6
  | .ContainerRename _ _ => 7
  | .ContainerRemove _ => 8

/-- The copy-out events of a run in which the files yield the streams `contents`. -/
def copyOutEvents (opts : options) (contents : List ReadCloser) : List Event :=
  (List.zip opts.CopyFiles contents).map
    (fun p => ⟨.CopyFromContainer opts.PosArgs.ContainerID p.1, .stream p.2⟩)

/-- The copy-in events of a run: stream `i` goes into container `cid`, at the
directory the program computes from file `i`. -/
def copyInEvents (opts : options) (cid : String) (contents : List ReadCloser) : List Event :=
  (List.zip opts.CopyFiles contents).map
    (fun p => ⟨.CopyToContainer cid (filepath.Dir (filepath.Dir p.1)) p.2, .done⟩)

/-- The create event for a snapshot, as `create` builds it. -/
def createEvent (opts : options) (info : ContainerJSON) (resp : Resp) : Event :=
  ⟨.ContainerCreate
      (if opts.Image != "" then { info.Config with Image := opts.Image } else info.Config)
      info.ContainerJSONBase.HostConfig
      { EndpointsConfig := info.NetworkSettings.Networks }
      (info.ContainerJSONBase.Name ++ newContainerSuffix), resp⟩

/-- The remove event of a successful run, present when `--rm` was given. -/
def removeEvents (opts : options) : List Event :=
  if opts.RemoveOldContainer
  then [⟨.ContainerRemove (opts.PosArgs.ContainerID ++ oldContainerSuffix), .done⟩]
  else []

/-- The calls of a complete successful run, in order: inspect answers `info`,
the copy-outs answer `contents`, create answers `body`. -/
def successTrace (opts : options) (info : ContainerJSON) (contents : List ReadCloser)
    (body : ContainerCreateCreatedBody) : List Event :=
  ⟨.ContainerInspect opts.PosArgs.ContainerID, .inspected info⟩ ::
    (copyOutEvents opts contents ++
      createEvent opts info (.created body) ::
      ⟨.ContainerStop opts.PosArgs.ContainerID, .done⟩ ::
      ⟨.ContainerStart body.ID, .done⟩ ::
      (copyInEvents opts body.ID contents ++
        ⟨.ContainerRename opts.PosArgs.ContainerID
            (opts.PosArgs.ContainerID ++ oldContainerSuffix), .done⟩ ::
        ⟨.ContainerRename (opts.PosArgs.ContainerID ++ newContainerSuffix)
            opts.PosArgs.ContainerID, .done⟩ ::
        removeEvents opts))

/-- A remove call was issued. -/
def removeIssued (tr : List Event) : Prop := ∃ ev ∈ tr, ∃ x, ev.call = .ContainerRemove x

/-- Number of remove calls issued. -/
def removeCount (tr : List Event) : Nat :=
  (tr.filter (fun ev => match ev.call with | .ContainerRemove _ => true | _ => false)).length

/-- The streams opened by successful copy-outs, oldest first. -/
def openedStreams (tr : List Event) : List ReadCloser :=
  tr.filterMap (fun ev => match ev.resp with | .stream r => some r | _ => none)

/-- The streams handed to copy-in calls, oldest first. -/
def injectedStreams (tr : List Event) : List ReadCloser :=
  tr.filterMap (fun ev => match ev.call with | .CopyToContainer _ _ r => some r | _ => none)

/-- How many times stream `r` was closed, given the record of the calls of `Close`. -/
def closeCount (r : ReadCloser) (closed : List ReadCloser) : Nat :=
  closed.count r

/-- What the client answers to a call in daemon state `d`: the response, as the
trace records it, and the next daemon state. -/
def Client.answer {σ : Type} (cli : Client σ) (d : σ) : Call → Resp × σ
  | .ContainerInspect cid =>
    match cli.ContainerInspect d cid with
    | (.error err, d1) => (.error err, d1)
    | (.ok cj, d1) => (.inspected cj, d1)
  | .CopyFromContainer cid srcPath =>
    match cli.CopyFromContainer d cid srcPath with
    | (.error err, d1) => (.error err, d1)
    | (.ok r, d1) => (.stream r, d1)
  | .ContainerCreate config hostConfig networkingConfig name =>
    match cli.ContainerCreate d config hostConfig networkingConfig name with
    | (.error err, d1) => (.error err, d1)
    | (.ok body, d1) => (.created body, d1)
  | .ContainerStop cid =>
    (respOfErr (cli.ContainerStop d cid).1, (cli.ContainerStop d cid).2)
  | .ContainerStart cid =>
    (respOfErr (cli.ContainerStart d cid).1, (cli.ContainerStart d cid).2)
  | .CopyToContainer cid dstPath content =>
    (respOfErr (cli.CopyToContainer d cid dstPath content).1,
     (cli.CopyToContainer d cid dstPath content).2)
  | .ContainerRename cid newName =>
    (respOfErr (cli.ContainerRename d cid newName).1, (cli.ContainerRename d cid newName).2)
  | .ContainerRemove cid =>
    (respOfErr (cli.ContainerRemove d cid).1, (cli.ContainerRemove d cid).2)

/-- Replay a trace on the client, from daemon state `d`: make the recorded calls
one after the other, each in the state the one before left, and check that
the client answers what the trace says.  The result is the daemon state after
the last call, or `none` when some recorded answer is not the client's.  A
trace replays to the final daemon state of a run exactly when the calls of the
trace, with these arguments and in this order, are the calls the run made on
the client, and the recorded answers are the client's answers. -/
def replay {σ : Type} (cli : Client σ) : σ → List Event → Option σ
  | d, [] => some d
  | d, ev :: tr =>
    if (cli.answer d ev.call).1 = ev.resp then replay cli (cli.answer d ev.call).2 tr else none

/-- The destination directories handed to the copy-in calls, oldest first. -/
def injectDestinations (tr : List Event) : List String :=
  tr.filterMap (fun ev => match ev.call with | .CopyToContainer _ dst _ => some dst | _ => none)

/-- The names under which containers were created, oldest first. -/
def createdNames (tr : List Event) : List String :=
  tr.filterMap (fun ev => match ev.call with | .ContainerCreate _ _ _ n => some n | _ => none)

/-- The rename calls issued, oldest first: source, target, and whether the call failed. -/
def renameCalls (tr : List Event) : List (String × String × Bool) :=
  tr.filterMap (fun ev =>
    match ev.call with | .ContainerRename a b => some (a, b, ev.failed) | _ => none)

/-- The steps before the optional remove, in a run in which they all succeed. -/
def stepsThroughRename (opts : options) (info : ContainerJSON) (contents : List ReadCloser)
    (body : ContainerCreateCreatedBody) : List Event :=
  ⟨.ContainerInspect opts.PosArgs.ContainerID, .inspected info⟩ ::
    (copyOutEvents opts contents ++
      createEvent opts info (.created body) ::
      ⟨.ContainerStop opts.PosArgs.ContainerID, .done⟩ ::
      ⟨.ContainerStart body.ID, .done⟩ ::
      (copyInEvents opts body.ID contents ++
        [⟨.ContainerRename opts.PosArgs.ContainerID
            (opts.PosArgs.ContainerID ++ oldContainerSuffix), .done⟩,
         ⟨.ContainerRename (opts.PosArgs.ContainerID ++ newContainerSuffix)
            opts.PosArgs.ContainerID, .done⟩]))

instance (tr : List Event) : Decidable (allOk tr) := by
  unfold allOk; infer_instance

/-- The world is a true record of a run that started in daemon state `d0`: the trace
replays on the client to the present daemon state, and the streams closed are
those handed to copy-in calls. -/
def Recorded {σ : Type} (cli : Client σ) (d0 : σ) (w : World σ) : Prop :=
  replay cli d0 w.trace = some w.daemon ∧ w.closed = injectedStreams w.trace

/-- Well-formed daemon states: names are unique, IDs are unique, and the IDs
still to be generated are not in use. -/
def Daemon.WF (d : Daemon.State) : Prop :=
  d.containers.Pairwise (fun a b => a.Name ≠ b.Name) ∧
  d.containers.Pairwise (fun a b => a.ID ≠ b.ID) ∧
  ∀ c ∈ d.containers, ∀ k, d.nextID ≤ k → c.ID ≠ Daemon.genID k

/-- The string `key` is a name, not an ID: neither it nor the two names derived
from it is the ID of a container, now or later. -/
def Daemon.NameNotID (d : Daemon.State) (key : String) : Prop :=
  (∀ k, Daemon.genID k ≠ key) ∧
  ∀ c ∈ d.containers,
    c.ID ≠ key ∧ c.ID ≠ key ++ newContainerSuffix ∧ c.ID ≠ key ++ oldContainerSuffix

/-! ## The fuel of `Clean` -/

namespace filepath

/-- One more unit of fuel changes nothing once the fuel covers the input. -/
theorem cleanLoop_fuel_succ (rooted : Bool) :
    ∀ (fuel : Nat) (rest rout : List Char) (dotdot : Nat), rest.length ≤ fuel →
      cleanLoop rooted (fuel + 1) rest rout dotdot = cleanLoop rooted fuel rest rout dotdot := by
  intro fuel
  induction fuel with
  | zero =>
    intro rest rout dotdot h
    have : rest = [] := List.length_eq_zero.1 (Nat.le_zero.1 h)
    subst this
    rfl
  | succ n ih =>
    intro rest rout dotdot h
    cases rest with
    | nil => rfl
    | cons c rest1 =>
      simp only [List.length_cons, Nat.add_le_add_iff_right] at h
      have ht : rest1.tail.length ≤ n := by
        rw [List.length_tail]; omega
      rw [cleanLoop, cleanLoop]
      simp only []
      have hd : ¬ IsPathSeparator c = true →
          ((c :: rest1).dropWhile (fun x => !IsPathSeparator x)).length ≤ n := by
        intro hc
        have hc1 : (!IsPathSeparator c) = true := by simpa using hc
        rw [List.dropWhile_cons, if_pos hc1]
        exact le_trans (List.dropWhile_sublist _).length_le h
      split_ifs
      all_goals first
        | exact ih _ _ _ h
        | exact ih _ _ _ ht
        | exact ih _ _ _ (hd ‹_›)

/-- The loop of `Clean` does not depend on the fuel, once it covers the input:
the model never stops for lack of fuel. -/
theorem cleanLoop_fuel (rooted : Bool) (k fuel : Nat) (rest rout : List Char) (dotdot : Nat)
    (h : rest.length ≤ fuel) :
    cleanLoop rooted (fuel + k) rest rout dotdot = cleanLoop rooted fuel rest rout dotdot := by
  induction k with
  | zero => rfl
  | succ k ih =>
    rw [← Nat.add_assoc, cleanLoop_fuel_succ rooted (fuel + k) rest rout dotdot (by omega), ih]

end filepath

/-! ## Lemmas on the single calls -/

theorem inspect_cases {σ : Type} (cli : Client σ) (w : World σ) (cid : String) :
    (∃ err w1, inspect cli w cid = (.error err, w1) ∧ w1.stderr = w.stderr ∧
        w1.trace = w.trace ++ [⟨.ContainerInspect cid, .error err⟩]) ∨
    (∃ cj w1, inspect cli w cid = (.ok cj, w1) ∧ w1.stderr = w.stderr ∧
        w1.trace = w.trace ++ [⟨.ContainerInspect cid, .inspected cj⟩]) := by
  unfold inspect
  rcases h : cli.ContainerInspect w.daemon cid with ⟨r, d⟩
  cases r with
  | error err => left; exact ⟨err, _, rfl, rfl, rfl⟩
  | ok cj => right; exact ⟨cj, _, rfl, rfl, rfl⟩

theorem copyFileFromContainer_cases {σ : Type} (cli : Client σ) (w : World σ)
    (cid fpath : String) :
    (∃ err w1, copyFileFromContainer cli w cid fpath = (.error err, w1) ∧
        w1.stderr = w.stderr ∧
        w1.trace = w.trace ++ [⟨.CopyFromContainer cid fpath, .error err⟩]) ∨
    (∃ r w1, copyFileFromContainer cli w cid fpath = (.ok r, w1) ∧ w1.stderr = w.stderr ∧
        w1.trace = w.trace ++ [⟨.CopyFromContainer cid fpath, .stream r⟩]) := by
  unfold copyFileFromContainer
  rcases h : cli.CopyFromContainer w.daemon cid fpath with ⟨r, d⟩
  cases r with
  | error err => left; exact ⟨err, _, rfl, rfl, rfl⟩
  | ok r => right; exact ⟨r, _, rfl, rfl, rfl⟩

theorem create_cases {σ : Type} (cli : Client σ) (opts : options) (w : World σ)
    (info : ContainerJSON) :
    (∃ err w1, create cli opts w info = (.error err, w1) ∧ w1.stderr = w.stderr ∧
        w1.trace = w.trace ++ [createEvent opts info (.error err)]) ∨
    (∃ body w1, create cli opts w info = (.ok body, w1) ∧ w1.stderr = w.stderr ∧
        w1.trace = w.trace ++ [createEvent opts info (.created body)]) := by
  unfold create
  simp only []
  rcases h : cli.ContainerCreate w.daemon
      (if opts.Image != "" then { info.Config with Image := opts.Image } else info.Config)
      info.ContainerJSONBase.HostConfig { EndpointsConfig := info.NetworkSettings.Networks }
      (info.ContainerJSONBase.Name ++ newContainerSuffix) with ⟨r, d⟩
  cases r with
  | error err => left; exact ⟨err, _, rfl, rfl, rfl⟩
  | ok body => right; exact ⟨body, _, rfl, rfl, rfl⟩

theorem stop_cases {σ : Type} (cli : Client σ) (w : World σ) (cid : String) :
    ∃ err w1, stop cli w cid = (err, w1) ∧ w1.stderr = w.stderr ∧
      w1.trace = w.trace ++ [⟨.ContainerStop cid, respOfErr err⟩] :=
  ⟨_, _, rfl, rfl, rfl⟩

theorem start_cases {σ : Type} (cli : Client σ) (w : World σ) (cid : String) :
    ∃ err w1, start cli w cid = (err, w1) ∧ w1.stderr = w.stderr ∧
      w1.trace = w.trace ++ [⟨.ContainerStart cid, respOfErr err⟩] :=
  ⟨_, _, rfl, rfl, rfl⟩

theorem remove_cases {σ : Type} (cli : Client σ) (w : World σ) (name : String) :
    ∃ err w1, remove cli w name = (err, w1) ∧ w1.stderr = w.stderr ∧
      w1.trace = w.trace ++ [⟨.ContainerRemove (name ++ oldContainerSuffix), respOfErr err⟩] :=
  ⟨_, _, rfl, rfl, rfl⟩

theorem copyFileToContainer_cases {σ : Type} (cli : Client σ) (w : World σ)
    (cid fpath : String) (r : ReadCloser) :
    ∃ err w1, copyFileToContainer cli w cid fpath r = (err, w1) ∧ w1.stderr = w.stderr ∧
      w1.trace = w.trace ++ [⟨.CopyToContainer cid (filepath.Dir fpath) r, respOfErr err⟩] :=
  ⟨_, _, rfl, rfl, rfl⟩

theorem rename_cases {σ : Type} (cli : Client σ) (w : World σ) (name : String) :
    (∃ err w1, rename cli w name = (some err, w1) ∧ w1.stderr = w.stderr ∧
        (cli.ContainerRename w.daemon name (name ++ oldContainerSuffix)).1 = some err ∧
        w1.trace = w.trace ++
          [⟨.ContainerRename name (name ++ oldContainerSuffix), .error err⟩]) ∨
    (∃ err w1, rename cli w name = (err, w1) ∧ w1.stderr = w.stderr ∧
        (cli.ContainerRename w.daemon name (name ++ oldContainerSuffix)).1 = none ∧
        w1.trace = w.trace ++
          [⟨.ContainerRename name (name ++ oldContainerSuffix), .done⟩,
           ⟨.ContainerRename (name ++ newContainerSuffix) name, respOfErr err⟩]) := by
  unfold rename
  rcases h : cli.ContainerRename w.daemon name (name ++ oldContainerSuffix) with ⟨r, d⟩
  cases r with
  | some err => left; exact ⟨err, _, rfl, rfl, rfl, rfl⟩
  | none => right; exact ⟨_, _, rfl, rfl, rfl, by simp⟩

/-! ## Lemmas on the two loops -/

theorem zip_split {α β : Type} (done : List α) (x : α) (rest : List α) (rs : List β) (y : β)
    (rs1 : List β) (h : rs.length = done.length) :
    List.zip (done ++ x :: rest) (rs ++ y :: rs1) = List.zip done rs ++ (x, y) :: List.zip rest rs1 := by
  rw [List.zip_append h.symm]
  rfl

theorem extractLoop_cases {σ : Type} (cli : Client σ) (cid : String) :
    ∀ (files : List String) (w : World σ) (contents : List ReadCloser),
    (∃ err w1 done file rest rs,
        extractLoop cli cid files w contents = (.error err, w1) ∧ w1.stderr = w.stderr ∧
        files = done ++ file :: rest ∧ rs.length = done.length ∧
        w1.trace = w.trace ++
          (List.zip done rs).map (fun p => ⟨.CopyFromContainer cid p.1, .stream p.2⟩) ++
          [⟨.CopyFromContainer cid file, .error err⟩]) ∨
    (∃ rs w1,
        extractLoop cli cid files w contents = (.ok (contents ++ rs), w1) ∧
        w1.stderr = w.stderr ∧ rs.length = files.length ∧
        w1.trace = w.trace ++
          (List.zip files rs).map (fun p => ⟨.CopyFromContainer cid p.1, .stream p.2⟩)) := by
  intro files
  induction files with
  | nil =>
    intro w contents
    right
    exact ⟨[], w, by simp [extractLoop], rfl, rfl, by simp⟩
  | cons file files ih =>
    intro w contents
    rcases copyFileFromContainer_cases cli w cid file with
      ⟨err, w1, h, hs, ht⟩ | ⟨r, w1, h, hs, ht⟩
    · left
      exact ⟨err, w1, [], file, files, [], by simp [extractLoop, h], hs, rfl, rfl, by simp [ht]⟩
    · rcases ih w1 (contents ++ [r]) with
        ⟨err, w2, done, f, rest, rs, h2, hs2, hf, hl, ht2⟩ | ⟨rs, w2, h2, hs2, hl, ht2⟩
      · left
        exact ⟨err, w2, file :: done, f, rest, r :: rs, by simp [extractLoop, h, h2],
          by rw [hs2, hs], by simp [hf], by simp [hl], by simp [ht2, ht]⟩
      · right
        exact ⟨r :: rs, w2, by simp [extractLoop, h, h2], by rw [hs2, hs], by simp [hl],
          by simp [ht2, ht]⟩

theorem injectLoop_cases {σ : Type} (cli : Client σ) (opts : options) (cid : String) :
    ∀ (rs : List ReadCloser) (i : Nat) (w : World σ),
    i + rs.length ≤ opts.CopyFiles.length →
    (∃ err w1 done r rest fdone f frest,
        injectLoop cli opts cid i rs w = (some err, w1) ∧ w1.stderr = w.stderr ∧
        rs = done ++ r :: rest ∧ opts.CopyFiles.drop i = fdone ++ f :: frest ∧
        done.length = fdone.length ∧
        w1.trace = w.trace ++
          (List.zip fdone done).map
            (fun p => ⟨.CopyToContainer cid (filepath.Dir (filepath.Dir p.1)) p.2, .done⟩) ++
          [⟨.CopyToContainer cid (filepath.Dir (filepath.Dir f)) r, .error err⟩]) ∨
    (∃ w1,
        injectLoop cli opts cid i rs w = (none, w1) ∧ w1.stderr = w.stderr ∧
        w1.trace = w.trace ++
          (List.zip (opts.CopyFiles.drop i) rs).map
            (fun p => ⟨.CopyToContainer cid (filepath.Dir (filepath.Dir p.1)) p.2, .done⟩)) := by
  intro rs
  induction rs with
  | nil =>
    intro i w _
    right
    exact ⟨w, by simp [injectLoop], rfl, by simp⟩
  | cons r rs ih =>
    intro i w hle
    have hi : i < opts.CopyFiles.length := by simp at hle; omega
    have hdrop : opts.CopyFiles.drop i = opts.CopyFiles[i] :: opts.CopyFiles.drop (i + 1) :=
      List.drop_eq_getElem_cons hi
    have hget : opts.CopyFiles.getD i "" = opts.CopyFiles[i] := by
      simp [List.getD, List.getElem?_eq_getElem hi]
    have hunf : injectLoop cli opts cid i (r :: rs) w =
        match copyFileToContainer cli w cid (filepath.Dir opts.CopyFiles[i]) r with
        | (some err, w1) => (some err, w1)
        | (none, w1) => injectLoop cli opts cid (i + 1) rs w1 := by
      rw [injectLoop, hget]
    rcases copyFileToContainer_cases cli w cid (filepath.Dir opts.CopyFiles[i]) r with
      ⟨err, w1, h, hs, ht⟩
    cases err with
    | some err =>
      left
      refine ⟨err, w1, [], r, rs, [], opts.CopyFiles[i], opts.CopyFiles.drop (i + 1),
        by rw [hunf, h], hs, rfl, hdrop, rfl, ?_⟩
      simp [ht, respOfErr]
    | none =>
      have hle1 : i + 1 + rs.length ≤ opts.CopyFiles.length := by simp at hle; omega
      rcases ih (i + 1) w1 hle1 with
        ⟨err, w2, done, r1, rest, fdone, f, frest, h2, hs2, hr, hf, hl, ht2⟩ | ⟨w2, h2, hs2, ht2⟩
      · left
        refine ⟨err, w2, r :: done, r1, rest, opts.CopyFiles[i] :: fdone, f, frest,
          by rw [hunf, h]; exact h2, by rw [hs2, hs], by simp [hr], by rw [hdrop, hf]; rfl,
          by simp [hl], ?_⟩
        simp [ht2, ht, respOfErr]
      · right
        refine ⟨w2, by rw [hunf, h]; exact h2, by rw [hs2, hs], ?_⟩
        simp only [ht2, ht, respOfErr, hdrop, List.zip_cons_cons, List.map_cons,
          List.append_assoc, List.singleton_append]

/-! ## The shape of every run -/

/-- Every run of the body of `exec` either succeeds, and then its calls are a
`successTrace`; or it returns 1, and then its calls are a proper beginning of a
`successTrace` followed by the failure of the call that comes next in it. -/
theorem execBody_cases {σ : Type} (cli : Client σ) (opts : options) (w : World σ) :
    ((execBody cli opts w).1 = 0 ∧ (execBody cli opts w).2.stderr = w.stderr ∧
      ∃ info contents body, contents.length = opts.CopyFiles.length ∧
        (execBody cli opts w).2.trace = w.trace ++ successTrace opts info contents body) ∨
    ((execBody cli opts w).1 = 1 ∧
      ∃ info contents body pre call resp err,
        contents.length = opts.CopyFiles.length ∧
        pre ++ [⟨call, resp⟩] <+: successTrace opts info contents body ∧
        (execBody cli opts w).2.trace = w.trace ++ pre ++ [⟨call, .error err⟩] ∧
        (execBody cli opts w).2.stderr = w.stderr ++ [err]) := by
  rcases inspect_cases cli w opts.PosArgs.ContainerID with
    ⟨err, w1, h1, hs1, ht1⟩ | ⟨info, w1, h1, hs1, ht1⟩
  · -- inspect fails
    have hE : execBody cli opts w = (1, printErr w1 err) := by simp [execBody, h1]
    right
    rw [hE]
    refine ⟨rfl, default, List.replicate opts.CopyFiles.length 0, default, [],
      .ContainerInspect opts.PosArgs.ContainerID, .inspected default, err, by simp, ?_, by simp [printErr, ht1], by simp [printErr, hs1]⟩
    simp [successTrace]
  rcases extractLoop_cases cli opts.PosArgs.ContainerID opts.CopyFiles w1 [] with
    ⟨err, w2, done, file, rest, rs, h2, hs2, hf, hl, ht2⟩ | ⟨contents, w2, h2, hs2, hl2, ht2⟩
  · -- a copy-out fails
    have hE : execBody cli opts w = (1, printErr w2 err) := by simp [execBody, h1, h2]
    right
    rw [hE]
    refine ⟨rfl, info, rs ++ 0 :: List.replicate rest.length 0, default,
      ⟨.ContainerInspect opts.PosArgs.ContainerID, .inspected info⟩ ::
        (List.zip done rs).map
          (fun p => ⟨.CopyFromContainer opts.PosArgs.ContainerID p.1, .stream p.2⟩),
      .CopyFromContainer opts.PosArgs.ContainerID file, .stream 0, err,
      by simp [hf, hl], ?_, by simp [printErr, ht2, ht1], by simp [printErr, hs2, hs1]⟩
    have hz : List.zip opts.CopyFiles (rs ++ 0 :: List.replicate rest.length 0) =
        List.zip done rs ++ (file, 0) :: List.zip rest (List.replicate rest.length 0) := by
      rw [hf]; exact zip_split _ _ _ _ _ _ hl
    simp only [successTrace, copyOutEvents, hz]
    simp
  simp only [List.nil_append] at h2
  rcases create_cases cli opts w2 info with ⟨err, w3, h3, hs3, ht3⟩ | ⟨body, w3, h3, hs3, ht3⟩
  · -- create fails
    have hE : execBody cli opts w = (1, printErr w3 err) := by simp [execBody, h1, h2, h3]
    right
    rw [hE]
    refine ⟨rfl, info, contents, default,
      ⟨.ContainerInspect opts.PosArgs.ContainerID, .inspected info⟩ ::
        copyOutEvents opts contents,
      (createEvent opts info (.error err)).call, .created default, err, hl2, ?_,
      by simp [printErr, ht3, ht2, ht1, copyOutEvents, createEvent],
      by simp [printErr, hs3, hs2, hs1]⟩
    simp [successTrace, createEvent]
  rcases stop_cases cli w3 opts.PosArgs.ContainerID with ⟨err4, w4, h4, hs4, ht4⟩
  cases err4 with
  | some err =>
    -- stop fails
    have hE : execBody cli opts w = (1, printErr w4 err) := by simp [execBody, h1, h2, h3, h4]
    right
    rw [hE]
    refine ⟨rfl, info, contents, body,
      ⟨.ContainerInspect opts.PosArgs.ContainerID, .inspected info⟩ ::
        (copyOutEvents opts contents ++ [createEvent opts info (.created body)]),
      .ContainerStop opts.PosArgs.ContainerID, .done, err, hl2, ?_,
      by simp [printErr, ht4, ht3, ht2, ht1, copyOutEvents, respOfErr],
      by simp [printErr, hs4, hs3, hs2, hs1]⟩
    simp [successTrace]
  | none =>
  rcases start_cases cli w4 body.ID with ⟨err5, w5, h5, hs5, ht5⟩
  cases err5 with
  | some err =>
    -- start fails
    have hE : execBody cli opts w = (1, printErr w5 err) := by
      simp [execBody, h1, h2, h3, h4, h5]
    right
    rw [hE]
    refine ⟨rfl, info, contents, body,
      ⟨.ContainerInspect opts.PosArgs.ContainerID, .inspected info⟩ ::
        (copyOutEvents opts contents ++ [createEvent opts info (.created body),
          ⟨.ContainerStop opts.PosArgs.ContainerID, .done⟩]),
      .ContainerStart body.ID, .done, err, hl2, ?_,
      by simp [printErr, ht5, ht4, ht3, ht2, ht1, copyOutEvents, respOfErr],
      by simp [printErr, hs5, hs4, hs3, hs2, hs1]⟩
    simp [successTrace]
  | none =>
  rcases injectLoop_cases cli opts body.ID contents 0 w5 (by simp [hl2]) with
    ⟨err, w6, done, r, rest, fdone, f, frest, h6, hs6, hr, hf, hl, ht6⟩ | ⟨w6, h6, hs6, ht6⟩
  · -- a copy-in fails
    have hE : execBody cli opts w = (1, printErr w6 err) := by
      simp [execBody, h1, h2, h3, h4, h5, h6]
    right
    rw [hE]
    refine ⟨rfl, info, contents, body,
      ⟨.ContainerInspect opts.PosArgs.ContainerID, .inspected info⟩ ::
        (copyOutEvents opts contents ++ createEvent opts info (.created body) ::
          ⟨.ContainerStop opts.PosArgs.ContainerID, .done⟩ ::
          ⟨.ContainerStart body.ID, .done⟩ ::
          (List.zip fdone done).map
            (fun p => ⟨.CopyToContainer body.ID (filepath.Dir (filepath.Dir p.1)) p.2, .done⟩)),
      .CopyToContainer body.ID (filepath.Dir (filepath.Dir f)) r, .done, err, hl2, ?_,
      by simp [printErr, ht6, ht5, ht4, ht3, ht2, ht1, copyOutEvents, respOfErr],
      by simp [printErr, hs6, hs5, hs4, hs3, hs2, hs1]⟩
    have hz : List.zip opts.CopyFiles contents =
        List.zip fdone done ++ (f, r) :: List.zip frest rest := by
      rw [List.drop_zero] at hf
      rw [hf, hr]; exact zip_split _ _ _ _ _ _ hl
    simp only [successTrace, copyInEvents, hz]
    simp
  rw [List.drop_zero] at ht6
  rcases rename_cases cli w6 opts.PosArgs.ContainerID with
    ⟨err, w7, h7, hs7, _, ht7⟩ | ⟨err7, w7, h7, hs7, _, ht7⟩
  · -- the first rename fails
    have hE : execBody cli opts w = (1, printErr w7 err) := by
      simp [execBody, h1, h2, h3, h4, h5, h6, h7]
    right
    rw [hE]
    refine ⟨rfl, info, contents, body,
      ⟨.ContainerInspect opts.PosArgs.ContainerID, .inspected info⟩ ::
        (copyOutEvents opts contents ++ createEvent opts info (.created body) ::
          ⟨.ContainerStop opts.PosArgs.ContainerID, .done⟩ ::
          ⟨.ContainerStart body.ID, .done⟩ :: copyInEvents opts body.ID contents),
      .ContainerRename opts.PosArgs.ContainerID
        (opts.PosArgs.ContainerID ++ oldContainerSuffix), .done, err, hl2, ?_,
      by simp [printErr, ht7, ht6, ht5, ht4, ht3, ht2, ht1, copyOutEvents, copyInEvents,
        respOfErr],
      by simp [printErr, hs7, hs6, hs5, hs4, hs3, hs2, hs1]⟩
    simp [successTrace]
  cases err7 with
  | some err =>
    -- the second rename fails
    have hE : execBody cli opts w = (1, printErr w7 err) := by
      simp [execBody, h1, h2, h3, h4, h5, h6, h7]
    right
    rw [hE]
    refine ⟨rfl, info, contents, body,
      ⟨.ContainerInspect opts.PosArgs.ContainerID, .inspected info⟩ ::
        (copyOutEvents opts contents ++ createEvent opts info (.created body) ::
          ⟨.ContainerStop opts.PosArgs.ContainerID, .done⟩ ::
          ⟨.ContainerStart body.ID, .done⟩ :: (copyInEvents opts body.ID contents ++
          [⟨.ContainerRename opts.PosArgs.ContainerID
            (opts.PosArgs.ContainerID ++ oldContainerSuffix), .done⟩])),
      .ContainerRename (opts.PosArgs.ContainerID ++ newContainerSuffix)
        opts.PosArgs.ContainerID, .done, err, hl2, ?_,
      by simp [printErr, ht7, ht6, ht5, ht4, ht3, ht2, ht1, copyOutEvents, copyInEvents,
        respOfErr],
      by simp [printErr, hs7, hs6, hs5, hs4, hs3, hs2, hs1]⟩
    simp [successTrace]
  | none =>
  by_cases hrm : opts.RemoveOldContainer = true
  · rcases remove_cases cli w7 opts.PosArgs.ContainerID with ⟨err8, w8, h8, hs8, ht8⟩
    cases err8 with
    | some err =>
      -- remove fails
      have hE : execBody cli opts w = (1, printErr w8 err) := by
        simp [execBody, h1, h2, h3, h4, h5, h6, h7, h8, hrm]
      right
      rw [hE]
      refine ⟨rfl, info, contents, body,
        ⟨.ContainerInspect opts.PosArgs.ContainerID, .inspected info⟩ ::
          (copyOutEvents opts contents ++ createEvent opts info (.created body) ::
            ⟨.ContainerStop opts.PosArgs.ContainerID, .done⟩ ::
            ⟨.ContainerStart body.ID, .done⟩ :: (copyInEvents opts body.ID contents ++
            [⟨.ContainerRename opts.PosArgs.ContainerID
              (opts.PosArgs.ContainerID ++ oldContainerSuffix), .done⟩,
             ⟨.ContainerRename (opts.PosArgs.ContainerID ++ newContainerSuffix)
              opts.PosArgs.ContainerID, .done⟩])),
        .ContainerRemove (opts.PosArgs.ContainerID ++ oldContainerSuffix), .done, err, hl2, ?_,
        by simp [printErr, ht8, ht7, ht6, ht5, ht4, ht3, ht2, ht1, copyOutEvents, copyInEvents,
          respOfErr],
        by simp [printErr, hs8, hs7, hs6, hs5, hs4, hs3, hs2, hs1]⟩
      simp [successTrace, removeEvents, hrm]
    | none =>
      have hE : execBody cli opts w = (0, w8) := by
        simp [execBody, h1, h2, h3, h4, h5, h6, h7, h8, hrm]
      left
      rw [hE]
      refine ⟨rfl, by simp [hs8, hs7, hs6, hs5, hs4, hs3, hs2, hs1], info, contents, body,
        hl2, ?_⟩
      simp [ht8, ht7, ht6, ht5, ht4, ht3, ht2, ht1, copyOutEvents, copyInEvents, respOfErr,
        successTrace, removeEvents, hrm]
  · have hE : execBody cli opts w = (0, w7) := by
      simp [execBody, h1, h2, h3, h4, h5, h6, h7, hrm]
    left
    rw [hE]
    refine ⟨rfl, by simp [hs7, hs6, hs5, hs4, hs3, hs2, hs1], info, contents, body, hl2, ?_⟩
    simp [ht7, ht6, ht5, ht4, ht3, ht2, ht1, copyOutEvents, copyInEvents, respOfErr,
      successTrace, removeEvents, hrm]

/-! ## Facts about a successful trace -/

theorem successTrace_allOk (opts : options) (info : ContainerJSON) (contents : List ReadCloser)
    (body : ContainerCreateCreatedBody) : allOk (successTrace opts info contents body) := by
  intro ev hev
  simp only [successTrace, copyOutEvents, copyInEvents, removeEvents, createEvent,
    List.mem_cons, List.mem_append, List.mem_map] at hev
  rcases hev with h | ⟨p, _, h⟩ | h | h | h | ⟨p, _, h⟩ | h | h | h
  · subst h; rfl
  · subst h; rfl
  · subst h; rfl
  · subst h; rfl
  · subst h; rfl
  · subst h; rfl
  · subst h; rfl
  · subst h; rfl
  · split at h
    · simp only [List.mem_singleton] at h; subst h; rfl
    · simp at h

theorem successTrace_step (opts : options) (info : ContainerJSON) (contents : List ReadCloser)
    (body : ContainerCreateCreatedBody) :
    (successTrace opts info contents body).Pairwise (fun a b => a.call.step ≤ b.call.step) := by
  have hrm : ∀ ev ∈ removeEvents opts, ev.call.step = 8 := by
    intro ev hev
    unfold removeEvents at hev
    split at hev
    · simp only [List.mem_singleton] at hev; subst hev; rfl
    · simp at hev
  have hrmp : (removeEvents opts).Pairwise (fun a b => a.call.step ≤ b.call.step) := by
    unfold removeEvents
    split <;> simp
  have hout : ∀ ev ∈ copyOutEvents opts contents, ev.call.step = 2 := by
    intro ev hev
    simp only [copyOutEvents, List.mem_map] at hev
    obtain ⟨p, _, h⟩ := hev
    subst h; rfl
  have hin : ∀ ev ∈ copyInEvents opts body.ID contents, ev.call.step = 6 := by
    intro ev hev
    simp only [copyInEvents, List.mem_map] at hev
    obtain ⟨p, _, h⟩ := hev
    subst h; rfl
  have houtp : (copyOutEvents opts contents).Pairwise (fun a b => a.call.step ≤ b.call.step) :=
    List.pairwise_of_forall_mem_list (fun a ha b hb => by rw [hout a ha, hout b hb])
  have hinp : (copyInEvents opts body.ID contents).Pairwise
      (fun a b => a.call.step ≤ b.call.step) :=
    List.pairwise_of_forall_mem_list (fun a ha b hb => by rw [hin a ha, hin b hb])
  simp only [successTrace, List.pairwise_cons, List.pairwise_append, List.mem_cons,
    List.mem_append, createEvent]
  refine ⟨?_, houtp, ⟨?_, ?_, ?_, hinp, ⟨?_, ?_, hrmp⟩, ?_⟩, ?_⟩
  · rintro b (h | h | h | h | h | h | h | h)
    · rw [hout b h]; simp [Call.step]
    · subst h; simp [Call.step]
    · subst h; simp [Call.step]
    · subst h; simp [Call.step]
    · rw [hin b h]; simp [Call.step]
    · subst h; simp [Call.step]
    · subst h; simp [Call.step]
    · rw [hrm b h]; simp [Call.step]
  · rintro b (h | h | h | h | h | h)
    · subst h; simp [Call.step]
    · subst h; simp [Call.step]
    · rw [hin b h]; simp [Call.step]
    · subst h; simp [Call.step]
    · subst h; simp [Call.step]
    · rw [hrm b h]; simp [Call.step]
  · rintro b (h | h | h | h | h)
    · subst h; simp [Call.step]
    · rw [hin b h]; simp [Call.step]
    · subst h; simp [Call.step]
    · subst h; simp [Call.step]
    · rw [hrm b h]; simp [Call.step]
  · rintro b (h | h | h | h)
    · rw [hin b h]; simp [Call.step]
    · subst h; simp [Call.step]
    · subst h; simp [Call.step]
    · rw [hrm b h]; simp [Call.step]
  · rintro b (h | h)
    · subst h; simp [Call.step]
    · rw [hrm b h]; simp [Call.step]
  · intro b h
    rw [hrm b h]; simp [Call.step]
  · rintro a ha b (h | h | h)
    · subst h; rw [hin a ha]; simp [Call.step]
    · subst h; rw [hin a ha]; simp [Call.step]
    · rw [hin a ha, hrm b h]; omega
  · rintro a ha b (h | h | h | h | h | h | h)
    · subst h; rw [hout a ha]; simp [Call.step]
    · subst h; rw [hout a ha]; simp [Call.step]
    · subst h; rw [hout a ha]; simp [Call.step]
    · rw [hout a ha, hin b h]; omega
    · subst h; rw [hout a ha]; simp [Call.step]
    · subst h; rw [hout a ha]; simp [Call.step]
    · rw [hout a ha, hrm b h]; omega

/-! ## Facts about a trace that ends in a failure -/

/-- In a list of successful calls followed by one failed call, a failed call can
only be the last one. -/
theorem failed_is_last (fe : Event) :
    ∀ (pre : List Event), allOk pre →
    ∀ (pre1 : List Event) (ev : Event) (post : List Event),
      pre ++ [fe] = pre1 ++ ev :: post → ev.failed = true →
      post = [] ∧ ev = fe ∧ pre1 = pre := by
  intro pre
  induction pre with
  | nil =>
    intro _ pre1 ev post h hf
    cases pre1 with
    | nil =>
      simp only [List.nil_append, List.cons.injEq] at h
      exact ⟨h.2.symm, h.1.symm, rfl⟩
    | cons b pre2 =>
      simp at h
  | cons a pre ih =>
    intro hok pre1 ev post h hf
    cases pre1 with
    | nil =>
      simp only [List.cons_append, List.nil_append, List.cons.injEq] at h
      have := hok a (List.mem_cons_self _ _)
      rw [h.1, hf] at this
      exact absurd this (by simp)
    | cons b pre2 =>
      simp only [List.cons_append, List.cons.injEq] at h
      have hok1 : allOk pre := fun e he => hok e (List.mem_cons_of_mem _ he)
      obtain ⟨h1, h2, h3⟩ := ih hok1 pre2 ev post h.2 hf
      exact ⟨h1, h2, by rw [h.1, h3]⟩

/-- What is known of the calls before a call of a successful trace: they
succeeded and belong to the same or an earlier step; the calls after it belong
to the same or a later step. -/
theorem prefix_facts {opts : options} {info : ContainerJSON} {contents : List ReadCloser}
    {body : ContainerCreateCreatedBody} {pre : List Event} {ev : Event}
    (h : pre ++ [ev] <+: successTrace opts info contents body) :
    allOk pre ∧ (∀ a ∈ pre, a.call.step ≤ ev.call.step) ∧
    ∃ t, successTrace opts info contents body = pre ++ ev :: t ∧
      ∀ b ∈ t, ev.call.step ≤ b.call.step := by
  obtain ⟨t, ht⟩ := h
  have hS : successTrace opts info contents body = pre ++ ev :: t := by
    rw [← ht]; simp
  have hok := successTrace_allOk opts info contents body
  have hst := successTrace_step opts info contents body
  rw [hS] at hok hst
  rw [List.pairwise_append, List.pairwise_cons] at hst
  refine ⟨fun e he => hok e (List.mem_append_left _ he),
    fun a ha => hst.2.2 a ha ev (List.mem_cons_self _ _), t, hS, hst.2.1.1⟩

/-- The two shapes of a run of `exec` on parsed options with a client, from a
fresh world. -/
theorem exec_cases {σ : Type} (cli : Client σ) (opts : options) (d : σ) :
    ((exec (.ok opts) (.ok cli) (World.init d)).1 = 0 ∧
      ∃ info contents body, contents.length = opts.CopyFiles.length ∧
        (exec (.ok opts) (.ok cli) (World.init d)).2.trace =
          successTrace opts info contents body) ∨
    ((exec (.ok opts) (.ok cli) (World.init d)).1 = 1 ∧
      ∃ info contents body pre call resp err,
        contents.length = opts.CopyFiles.length ∧
        pre ++ [⟨call, resp⟩] <+: successTrace opts info contents body ∧
        (exec (.ok opts) (.ok cli) (World.init d)).2.trace = pre ++ [⟨call, .error err⟩]) := by
  have hx : exec (.ok opts) (.ok cli) (World.init d) = execBody cli opts (World.init d) := rfl
  rw [hx]
  rcases execBody_cases cli opts (World.init d) with
    ⟨h0, _, info, contents, body, hl, ht⟩ | ⟨h1, info, contents, body, pre, call, resp, err, hl, hp, ht, _⟩
  · left
    exact ⟨h0, info, contents, body, hl, by simpa [World.init] using ht⟩
  · right
    exact ⟨h1, info, contents, body, pre, call, resp, err, hl, hp, by simpa [World.init] using ht⟩

/-- Without parsed options or without a client no call is issued. -/
theorem exec_no_client {σ : Type} (parsed : Except ParseError options)
    (newEnvClient : Except Err (Client σ)) (d : σ)
    (h : ∀ opts cli, ¬ (parsed = .ok opts ∧ newEnvClient = .ok cli)) :
    (exec parsed newEnvClient (World.init d)).2.trace = [] := by
  cases parsed with
  | error e =>
    cases e with
    | flagsError b m => cases b <;> rfl
    | other m => rfl
  | ok opts =>
    cases newEnvClient with
    | error e => rfl
    | ok cli => exact absurd ⟨rfl, rfl⟩ (h opts cli)

/-- Appending a non-empty suffix changes a name. -/
theorem append_suffix_ne (s t : String) (ht : t.length ≠ 0) : s ++ t ≠ s := by
  intro h
  have := congrArg String.length h
  rw [String.length_append] at this
  omega

theorem successTrace_eq (opts : options) (info : ContainerJSON) (contents : List ReadCloser)
    (body : ContainerCreateCreatedBody) :
    successTrace opts info contents body =
      stepsThroughRename opts info contents body ++ removeEvents opts := by
  simp [successTrace, stepsThroughRename]

theorem stepsThroughRename_no_remove (opts : options) (info : ContainerJSON)
    (contents : List ReadCloser) (body : ContainerCreateCreatedBody) :
    ∀ e ∈ stepsThroughRename opts info contents body, ∀ x, e.call ≠ .ContainerRemove x := by
  intro e he x hx
  simp only [stepsThroughRename, copyOutEvents, copyInEvents, createEvent,
    List.mem_cons, List.mem_append, List.mem_map, List.mem_singleton] at he
  rcases he with h | ⟨p, _, h⟩ | h | h | h | ⟨p, _, h⟩ | h | h | h
  all_goals first | (subst h; simp at hx) | simp at h

theorem split_snoc {α : Type} (pre : List α) (ev : α) (post : List α) (core : List α) (x : α)
    (h : pre ++ ev :: post = core ++ [x]) :
    (pre = core ∧ ev = x ∧ post = []) ∨ (∃ rest, core = pre ++ ev :: rest) := by
  induction pre generalizing core with
  | nil =>
    cases core with
    | nil =>
      simp only [List.nil_append, List.cons.injEq] at h
      exact Or.inl ⟨rfl, h.1, h.2⟩
    | cons c core =>
      simp only [List.nil_append, List.cons_append, List.cons.injEq] at h
      exact Or.inr ⟨core, by rw [h.1]; rfl⟩
  | cons a pre ih =>
    cases core with
    | nil =>
      simp at h
    | cons c core =>
      simp only [List.cons_append, List.cons.injEq] at h
      rcases ih core h.2 with ⟨h1, h2, h3⟩ | ⟨rest, hr⟩
      · exact Or.inl ⟨by rw [h.1, h1], h2, h3⟩
      · exact Or.inr ⟨rest, by rw [h.1, hr]; rfl⟩

theorem removeCount_append (a b : List Event) :
    removeCount (a ++ b) = removeCount a + removeCount b := by
  simp [removeCount]

theorem removeCount_eq_zero (tr : List Event)
    (h : ∀ e ∈ tr, ∀ x, e.call ≠ .ContainerRemove x) : removeCount tr = 0 := by
  unfold removeCount
  rw [List.length_eq_zero, List.filter_eq_nil_iff]
  intro e he
  have := h e he
  cases hc : e.call <;> simp_all

/-- The one call `create` issues, with the arguments it builds, and its result. -/
theorem create_spec {σ : Type} (cli : Client σ) (opts : options) (w : World σ)
    (info : ContainerJSON) :
    ∃ resp,
      (create cli opts w info).2.trace =
        w.trace ++ [⟨.ContainerCreate
          (if opts.Image != "" then { info.Config with Image := opts.Image } else info.Config)
          info.ContainerJSONBase.HostConfig
          { EndpointsConfig := info.NetworkSettings.Networks }
          (info.ContainerJSONBase.Name ++ newContainerSuffix), resp⟩] ∧
      ((create cli opts w info).1, (create cli opts w info).2.daemon) =
        cli.ContainerCreate w.daemon
          (if opts.Image != "" then { info.Config with Image := opts.Image } else info.Config)
          info.ContainerJSONBase.HostConfig
          { EndpointsConfig := info.NetworkSettings.Networks }
          (info.ContainerJSONBase.Name ++ newContainerSuffix) := by
  unfold create
  simp only []
  rcases h : cli.ContainerCreate w.daemon
      (if opts.Image != "" then { info.Config with Image := opts.Image } else info.Config)
      info.ContainerJSONBase.HostConfig { EndpointsConfig := info.NetworkSettings.Networks }
      (info.ContainerJSONBase.Name ++ newContainerSuffix) with ⟨r, d⟩
  cases r with
  | error err => exact ⟨.error err, rfl, rfl⟩
  | ok body => exact ⟨.created body, rfl, rfl⟩

theorem removeCount_pos (tr : List Event) (h : removeIssued tr) : 1 ≤ removeCount tr := by
  obtain ⟨ev, hev, x, hx⟩ := h
  unfold removeCount
  exact List.length_pos_of_mem (List.mem_filter.2 ⟨hev, by simp [hx]⟩)

/-- The four facts about remove calls, for a trace without any remove call
that ends in a failed call. -/
theorem no_remove_facts (opts : options) (pre : List Event) (call : Call) (err : Err)
    (hno : ∀ e ∈ pre ++ [(⟨call, .error err⟩ : Event)], ∀ x, e.call ≠ .ContainerRemove x) :
    (removeIssued (pre ++ [⟨call, .error err⟩]) ↔
      (opts.RemoveOldContainer = true ∧
       (∀ ev ∈ pre ++ [(⟨call, .error err⟩ : Event)],
          (∀ x, ev.call ≠ .ContainerRemove x) → ev.failed = false) ∧
       ⟨.ContainerRename opts.PosArgs.ContainerID
          (opts.PosArgs.ContainerID ++ oldContainerSuffix), .done⟩
          ∈ pre ++ [(⟨call, .error err⟩ : Event)] ∧
       ⟨.ContainerRename (opts.PosArgs.ContainerID ++ newContainerSuffix)
          opts.PosArgs.ContainerID, .done⟩ ∈ pre ++ [(⟨call, .error err⟩ : Event)])) ∧
    removeCount (pre ++ [⟨call, .error err⟩]) ≤ 1 ∧
    (∀ ev ∈ pre ++ [(⟨call, .error err⟩ : Event)], ∀ x, ev.call = .ContainerRemove x →
      x = opts.PosArgs.ContainerID ++ oldContainerSuffix) ∧
    (opts.RemoveOldContainer = false → ¬ removeIssued (pre ++ [⟨call, .error err⟩])) := by
  have hni : ¬ removeIssued (pre ++ [⟨call, .error err⟩]) :=
    fun ⟨ev, hev, x, hx⟩ => hno ev hev x hx
  refine ⟨⟨fun h => absurd h hni, ?_⟩, ?_, fun ev hev x hx => absurd hx (hno ev hev x),
    fun _ => hni⟩
  · rintro ⟨_, hall, _⟩
    have := hall ⟨call, .error err⟩ (by simp) (hno _ (by simp))
    simp [Event.failed] at this
  · rw [removeCount_eq_zero _ hno]; omega

/-- The four facts about remove calls, for a trace of one of the two shapes a
run can have. -/
theorem remove_facts (opts : options) (tr : List Event)
    (h : (∃ info contents body, tr = successTrace opts info contents body) ∨
         (∃ info contents body pre call resp err,
            pre ++ [⟨call, resp⟩] <+: successTrace opts info contents body ∧
            tr = pre ++ [⟨call, .error err⟩])) :
    (removeIssued tr ↔
      (opts.RemoveOldContainer = true ∧
       (∀ ev ∈ tr, (∀ x, ev.call ≠ .ContainerRemove x) → ev.failed = false) ∧
       ⟨.ContainerRename opts.PosArgs.ContainerID
          (opts.PosArgs.ContainerID ++ oldContainerSuffix), .done⟩ ∈ tr ∧
       ⟨.ContainerRename (opts.PosArgs.ContainerID ++ newContainerSuffix)
          opts.PosArgs.ContainerID, .done⟩ ∈ tr)) ∧
    removeCount tr ≤ 1 ∧
    (∀ ev ∈ tr, ∀ x, ev.call = .ContainerRemove x →
      x = opts.PosArgs.ContainerID ++ oldContainerSuffix) ∧
    (opts.RemoveOldContainer = false → ¬ removeIssued tr) := by
  rcases h with ⟨info, contents, body, rfl⟩ | ⟨info, contents, body, pre, call, resp, err, hp, rfl⟩
  · -- a successful run
    have hno := stepsThroughRename_no_remove opts info contents body
    have hok := successTrace_allOk opts info contents body
    have hr1 : (⟨.ContainerRename opts.PosArgs.ContainerID
        (opts.PosArgs.ContainerID ++ oldContainerSuffix), .done⟩ : Event) ∈
        stepsThroughRename opts info contents body := by simp [stepsThroughRename]
    have hr2 : (⟨.ContainerRename (opts.PosArgs.ContainerID ++ newContainerSuffix)
        opts.PosArgs.ContainerID, .done⟩ : Event) ∈
        stepsThroughRename opts info contents body := by simp [stepsThroughRename]
    rw [successTrace_eq] at hok ⊢
    by_cases hrm : opts.RemoveOldContainer = true
    · have hre : removeEvents opts =
          [⟨.ContainerRemove (opts.PosArgs.ContainerID ++ oldContainerSuffix), .done⟩] := by
        simp [removeEvents, hrm]
      rw [hre] at hok ⊢
      refine ⟨⟨fun _ => ⟨hrm, fun ev hev _ => hok ev hev, List.mem_append_left _ hr1,
        List.mem_append_left _ hr2⟩,
        fun _ => ⟨⟨.ContainerRemove (opts.PosArgs.ContainerID ++ oldContainerSuffix), .done⟩,
          by simp, _, rfl⟩⟩, ?_, ?_, ?_⟩
      · rw [removeCount_append, removeCount_eq_zero _ hno]; simp [removeCount]
      · intro ev hev x hx
        rcases List.mem_append.1 hev with h | h
        · exact absurd hx (hno ev h x)
        · simp only [List.mem_singleton] at h
          subst h
          simp only [Call.ContainerRemove.injEq] at hx
          exact hx.symm
      · intro hf; rw [hf] at hrm; exact absurd hrm (by simp)
    · have hre : removeEvents opts = [] := by simp [removeEvents, hrm]
      rw [hre, List.append_nil]
      have hni : ¬ removeIssued (stepsThroughRename opts info contents body) :=
        fun ⟨ev, hev, x, hx⟩ => hno ev hev x hx
      exact ⟨⟨fun h => absurd h hni, fun h => absurd h.1 hrm⟩,
        by rw [removeCount_eq_zero _ hno]; omega,
        fun ev hev x hx => absurd hx (hno ev hev x), fun _ => hni⟩
  · -- a failed run
    obtain ⟨hok, _, t, hS, _⟩ := prefix_facts hp
    have hcore := stepsThroughRename_no_remove opts info contents body
    rw [successTrace_eq] at hS
    -- the case in which the failed call lies within the steps before the remove
    have hb : ∀ rest, stepsThroughRename opts info contents body = pre ++ ⟨call, resp⟩ :: rest →
        ∀ e ∈ pre ++ [(⟨call, .error err⟩ : Event)], ∀ x, e.call ≠ .ContainerRemove x := by
      intro rest hr e he x
      rcases List.mem_append.1 he with h | h
      · exact hcore e (by rw [hr]; exact List.mem_append_left _ h) x
      · simp only [List.mem_singleton] at h
        subst h
        exact hcore ⟨call, resp⟩ (by rw [hr]; simp) x
    by_cases hrm : opts.RemoveOldContainer = true
    · have hre : removeEvents opts =
          [⟨.ContainerRemove (opts.PosArgs.ContainerID ++ oldContainerSuffix), .done⟩] := by
        simp [removeEvents, hrm]
      rw [hre] at hS
      rcases split_snoc pre _ t _ _ hS.symm with ⟨h1, h2, _⟩ | ⟨rest, hr⟩
      · -- the remove itself failed
        simp only [Event.mk.injEq] at h2
        obtain ⟨hcall, _⟩ := h2
        subst hcall
        subst h1
        have hr1 : (⟨.ContainerRename opts.PosArgs.ContainerID
            (opts.PosArgs.ContainerID ++ oldContainerSuffix), .done⟩ : Event) ∈
            stepsThroughRename opts info contents body := by simp [stepsThroughRename]
        have hr2 : (⟨.ContainerRename (opts.PosArgs.ContainerID ++ newContainerSuffix)
            opts.PosArgs.ContainerID, .done⟩ : Event) ∈
            stepsThroughRename opts info contents body := by simp [stepsThroughRename]
        refine ⟨⟨fun _ => ⟨hrm, ?_, List.mem_append_left _ hr1, List.mem_append_left _ hr2⟩,
          fun _ => ⟨⟨.ContainerRemove (opts.PosArgs.ContainerID ++ oldContainerSuffix),
            .error err⟩, by simp, _, rfl⟩⟩, ?_, ?_, ?_⟩
        · intro ev hev hnr
          rcases List.mem_append.1 hev with h | h
          · exact hok ev h
          · simp only [List.mem_singleton] at h
            subst h
            exact absurd rfl (hnr _)
        · rw [removeCount_append, removeCount_eq_zero _ hcore]; simp [removeCount]
        · intro ev hev x hx
          rcases List.mem_append.1 hev with h | h
          · exact absurd hx (hcore ev h x)
          · simp only [List.mem_singleton] at h
            subst h
            simp only [Call.ContainerRemove.injEq] at hx
            exact hx.symm
        · intro hf; rw [hf] at hrm; exact absurd hrm (by simp)
      · exact no_remove_facts opts pre call err (hb rest hr)
    · have hre : removeEvents opts = [] := by simp [removeEvents, hrm]
      rw [hre, List.append_nil] at hS
      exact no_remove_facts opts pre call err (hb t hS)

/-! ### Streams -/

theorem filterMap_eq_nil_of_forall {α β : Type} (f : α → Option β) (l : List α)
    (h : ∀ x ∈ l, f x = none) : l.filterMap f = [] := by
  induction l with
  | nil => rfl
  | cons a l ih =>
    rw [List.filterMap_cons, h a (List.mem_cons_self _ _)]
    exact ih (fun x hx => h x (List.mem_cons_of_mem _ hx))

theorem exists_of_filterMap_ne_nil {α β : Type} (f : α → Option β) (l : List α)
    (h : l.filterMap f ≠ []) : ∃ x ∈ l, f x ≠ none := by
  by_contra hc
  push_neg at hc
  exact h (filterMap_eq_nil_of_forall f l hc)

theorem filterMap_map_snd {α β γ : Type} (g : α × β → γ) (f : γ → Option β) (l : List (α × β))
    (h : ∀ p, f (g p) = some p.2) : (l.map g).filterMap f = l.map Prod.snd := by
  induction l with
  | nil => rfl
  | cons a l ih => rw [List.map_cons, List.filterMap_cons, h a, ih]; rfl

theorem filterMap_map_none {α γ δ : Type} (g : α → γ) (f : γ → Option δ) (l : List α)
    (h : ∀ p, f (g p) = none) : (l.map g).filterMap f = [] :=
  filterMap_eq_nil_of_forall f _ (by
    intro x hx
    obtain ⟨p, _, rfl⟩ := List.mem_map.1 hx
    exact h p)

theorem removeEvents_opened (opts : options) : openedStreams (removeEvents opts) = [] := by
  unfold removeEvents; split <;> rfl

theorem removeEvents_injected (opts : options) : injectedStreams (removeEvents opts) = [] := by
  unfold removeEvents; split <;> rfl

theorem openedStreams_append (a b : List Event) :
    openedStreams (a ++ b) = openedStreams a ++ openedStreams b := by
  simp [openedStreams]

theorem injectedStreams_append (a b : List Event) :
    injectedStreams (a ++ b) = injectedStreams a ++ injectedStreams b := by
  simp [injectedStreams]

theorem successTrace_opened (opts : options) (info : ContainerJSON) (contents : List ReadCloser)
    (body : ContainerCreateCreatedBody) (hl : contents.length = opts.CopyFiles.length) :
    openedStreams (successTrace opts info contents body) = contents := by
  have h1 : openedStreams (copyOutEvents opts contents) = contents := by
    unfold openedStreams copyOutEvents
    refine (filterMap_map_snd _ _ _ ?_).trans (List.map_snd_zip _ _ (by omega))
    intro p; rfl
  have h2 : openedStreams (copyInEvents opts body.ID contents) = [] := by
    unfold openedStreams copyInEvents
    exact filterMap_map_none _ _ _ (fun p => rfl)
  have hS : successTrace opts info contents body =
      [⟨.ContainerInspect opts.PosArgs.ContainerID, .inspected info⟩] ++
        (copyOutEvents opts contents ++
          ([createEvent opts info (.created body),
            ⟨.ContainerStop opts.PosArgs.ContainerID, .done⟩,
            ⟨.ContainerStart body.ID, .done⟩] ++
          (copyInEvents opts body.ID contents ++
            ([⟨.ContainerRename opts.PosArgs.ContainerID
                (opts.PosArgs.ContainerID ++ oldContainerSuffix), .done⟩,
              ⟨.ContainerRename (opts.PosArgs.ContainerID ++ newContainerSuffix)
                opts.PosArgs.ContainerID, .done⟩] ++ removeEvents opts)))) := by
    simp [successTrace]
  rw [hS]
  simp only [openedStreams_append, h1, h2, removeEvents_opened]
  simp [openedStreams, createEvent]

theorem successTrace_injected (opts : options) (info : ContainerJSON)
    (contents : List ReadCloser) (body : ContainerCreateCreatedBody)
    (hl : contents.length = opts.CopyFiles.length) :
    injectedStreams (successTrace opts info contents body) = contents := by
  have h1 : injectedStreams (copyInEvents opts body.ID contents) = contents := by
    unfold injectedStreams copyInEvents
    refine (filterMap_map_snd _ _ _ ?_).trans (List.map_snd_zip _ _ (by omega))
    intro p; rfl
  have h2 : injectedStreams (copyOutEvents opts contents) = [] := by
    unfold injectedStreams copyOutEvents
    exact filterMap_map_none _ _ _ (fun p => rfl)
  have hS : successTrace opts info contents body =
      [⟨.ContainerInspect opts.PosArgs.ContainerID, .inspected info⟩] ++
        (copyOutEvents opts contents ++
          ([createEvent opts info (.created body),
            ⟨.ContainerStop opts.PosArgs.ContainerID, .done⟩,
            ⟨.ContainerStart body.ID, .done⟩] ++
          (copyInEvents opts body.ID contents ++
            ([⟨.ContainerRename opts.PosArgs.ContainerID
                (opts.PosArgs.ContainerID ++ oldContainerSuffix), .done⟩,
              ⟨.ContainerRename (opts.PosArgs.ContainerID ++ newContainerSuffix)
                opts.PosArgs.ContainerID, .done⟩] ++ removeEvents opts)))) := by
    simp [successTrace]
  rw [hS]
  simp only [injectedStreams_append, h1, h2, removeEvents_injected]
  simp [injectedStreams, createEvent]

/-- In a successful trace only copy-outs answer with a stream. -/
theorem successTrace_calls (opts : options) (info : ContainerJSON) (contents : List ReadCloser)
    (body : ContainerCreateCreatedBody) :
    ∀ e ∈ successTrace opts info contents body, ∀ r, e.resp = .stream r → e.call.step = 2 := by
  intro ev hev
  simp only [successTrace, copyOutEvents, copyInEvents, removeEvents, createEvent,
    List.mem_cons, List.mem_append, List.mem_map] at hev
  rcases hev with h | ⟨p, _, h⟩ | h | h | h | ⟨p, _, h⟩ | h | h | h
  all_goals first
    | (subst h; exact fun r hr => by first | rfl | simp at hr)
    | (split at h
       · simp only [List.mem_singleton] at h
         subst h
         exact fun r hr => by simp at hr
       · simp at h)

/-- The facts about streams, for a trace of one of the two shapes a run can have:
the streams handed to copy-in calls are the first streams opened, in order, and
all of them when no call failed. -/
theorem stream_facts (opts : options) (tr : List Event)
    (h : (∃ info contents body, contents.length = opts.CopyFiles.length ∧
            tr = successTrace opts info contents body) ∨
         (∃ info contents body pre call resp err,
            contents.length = opts.CopyFiles.length ∧
            pre ++ [⟨call, resp⟩] <+: successTrace opts info contents body ∧
            tr = pre ++ [⟨call, .error err⟩])) :
    injectedStreams tr <+: openedStreams tr ∧
    (allOk tr → injectedStreams tr = openedStreams tr) := by
  rcases h with ⟨info, contents, body, hl, rfl⟩ |
    ⟨info, contents, body, pre, call, resp, err, hl, hp, rfl⟩
  · rw [successTrace_opened opts info contents body hl,
      successTrace_injected opts info contents body hl]
    exact ⟨List.prefix_refl _, fun _ => rfl⟩
  · obtain ⟨_, hle, t, hS, hge⟩ := prefix_facts hp
    have hc := successTrace_calls opts info contents body
    have hO := successTrace_opened opts info contents body hl
    have hI := successTrace_injected opts info contents body hl
    rw [hS] at hc
    have hS2 : successTrace opts info contents body = (pre ++ [⟨call, resp⟩]) ++ t := by
      rw [hS]; simp
    rw [hS, openedStreams_append] at hO
    rw [hS2, injectedStreams_append] at hI
    refine ⟨?_, ?_⟩
    · have e1 : openedStreams (pre ++ [(⟨call, .error err⟩ : Event)]) = openedStreams pre := by
        rw [openedStreams_append]; simp [openedStreams]
      have e2 : injectedStreams (pre ++ [(⟨call, .error err⟩ : Event)]) =
          injectedStreams (pre ++ [(⟨call, resp⟩ : Event)]) := by
        rw [injectedStreams_append, injectedStreams_append]; rfl
      rw [e1, e2]
      by_cases hnil : injectedStreams (pre ++ [(⟨call, resp⟩ : Event)]) = []
      · rw [hnil]; exact List.nil_prefix
      · obtain ⟨x, hx, hfx⟩ := exists_of_filterMap_ne_nil _ _ hnil
        have hx6 : x.call.step = 6 := by
          cases hcx : x.call <;> simp [hcx] at hfx
          rfl
        have hcall : 6 ≤ call.step := by
          rcases List.mem_append.1 hx with h | h
          · have := hle x h
            rw [hx6] at this
            exact this
          · simp only [List.mem_singleton] at h
            rw [h] at hx6
            exact le_of_eq hx6.symm
        have hrest : openedStreams ((⟨call, resp⟩ : Event) :: t) = [] := by
          apply filterMap_eq_nil_of_forall
          intro b hb
          have hb6 : 6 ≤ b.call.step := by
            rcases List.mem_cons.1 hb with h | h
            · rw [h]; exact hcall
            · exact le_trans hcall (hge b h)
          have hb2 := hc b (List.mem_append_right _ hb)
          cases hr : b.resp with
          | stream r => have := hb2 r hr; omega
          | _ => rfl
        rw [hrest, List.append_nil] at hO
        rw [hO]
        exact ⟨_, hI⟩
    · intro hok
      have := hok ⟨call, .error err⟩ (by simp)
      simp [Event.failed] at this

/-! ## The reference daemon: names, IDs and lookups -/

namespace Daemon

theorem normName_head (s : String) : (normName s).data.head? = some '/' := by
  unfold normName
  split
  · assumption
  · simp [String.data_append]

theorem normName_of_head {s : String} (h : s.data.head? = some '/') : normName s = s := by
  simp [normName, h]

theorem head_append {s t : String} (h : s.data.head? = some '/') :
    (s ++ t).data.head? = some '/' := by
  rw [String.data_append]
  cases hs : s.data with
  | nil => simp [hs] at h
  | cons c cs => simpa [hs] using h

theorem normName_append (key sfx : String) (hs : sfx.data.head? ≠ some '/') :
    normName (key ++ sfx) = normName key ++ sfx := by
  by_cases h : key.data.head? = some '/'
  · rw [normName_of_head h, normName_of_head (head_append h)]
  · have h2 : (key ++ sfx).data.head? ≠ some '/' := by
      rw [String.data_append]
      cases hk : key.data with
      | nil => simpa using hs
      | cons c cs => simpa [hk] using h
    unfold normName
    rw [if_neg h2, if_neg h, String.append_assoc]

theorem normName_norm_append (key sfx : String) :
    normName (normName key ++ sfx) = normName key ++ sfx :=
  normName_of_head (head_append (normName_head key))

theorem normName_new (key : String) :
    normName (key ++ newContainerSuffix) = normName key ++ newContainerSuffix :=
  normName_append key _ (by decide)

theorem normName_old (key : String) :
    normName (key ++ oldContainerSuffix) = normName key ++ oldContainerSuffix :=
  normName_append key _ (by decide)

theorem append_ne_append (s a b : String) (h : a ≠ b) : s ++ a ≠ s ++ b := by
  intro e
  apply h
  have := congrArg String.data e
  rw [String.data_append, String.data_append] at this
  exact String.ext (List.append_cancel_left this)

theorem new_ne_old (s : String) : s ++ newContainerSuffix ≠ s ++ oldContainerSuffix :=
  append_ne_append s _ _ (by decide)

theorem genID_injective {a b : Nat} (h : genID a = genID b) : a = b := by
  have := congrArg String.length h
  simpa [genID, String.length] using this

theorem genID_ne_of_mem (s : String) (c : Char) (hc : c ∈ s.data) (hf : c ≠ 'f') (k : Nat) :
    genID k ≠ s := by
  intro h
  subst h
  simp only [genID, List.mem_replicate] at hc
  exact hf hc.2

theorem genID_ne_new (key : String) (k : Nat) : genID k ≠ key ++ newContainerSuffix :=
  genID_ne_of_mem _ '_' (by rw [String.data_append]; exact List.mem_append_right _ (by decide))
    (by decide) k

theorem genID_ne_old (key : String) (k : Nat) : genID k ≠ key ++ oldContainerSuffix :=
  genID_ne_of_mem _ '_' (by rw [String.data_append]; exact List.mem_append_right _ (by decide))
    (by decide) k

theorem find_of_id {d : State} {pre post : List Container} {a : Container} {key : String}
    (h : d.containers = pre ++ a :: post) (hpre : ∀ x ∈ pre, x.ID ≠ key) (ha : a.ID = key) :
    find d key = some a := by
  have h1 : pre.find? (fun c => c.ID == key) = none := by
    rw [List.find?_eq_none]
    intro x hx
    simpa using hpre x hx
  unfold find
  rw [h, List.find?_append, h1]
  simp [ha]

theorem find_of_name {d : State} {pre post : List Container} {a : Container} {key : String}
    (h : d.containers = pre ++ a :: post) (hid : ∀ x ∈ d.containers, x.ID ≠ key)
    (hpre : ∀ x ∈ pre, x.Name ≠ normName key) (ha : a.Name = normName key) :
    find d key = some a := by
  have h0 : d.containers.find? (fun c => c.ID == key) = none := by
    rw [List.find?_eq_none]
    intro x hx
    simpa using hid x hx
  have h1 : pre.find? (fun c => c.Name == normName key) = none := by
    rw [List.find?_eq_none]
    intro x hx
    simpa using hpre x hx
  unfold find
  rw [h0]
  simp only []
  rw [h, List.find?_append, h1]
  simp [ha]

theorem find_none {d : State} {key : String} (hid : ∀ x ∈ d.containers, x.ID ≠ key)
    (hn : ∀ x ∈ d.containers, x.Name ≠ normName key) : find d key = none := by
  have h0 : d.containers.find? (fun c => c.ID == key) = none := by
    rw [List.find?_eq_none]
    intro x hx
    simpa using hid x hx
  have h1 : d.containers.find? (fun c => c.Name == normName key) = none := by
    rw [List.find?_eq_none]
    intro x hx
    simpa using hn x hx
  unfold find
  rw [h0]
  simp only []
  exact h1

/-- A container found under a key that is no ID was found by its name. -/
theorem find_some_name {d : State} {key : String} {c : Container}
    (hid : ∀ x ∈ d.containers, x.ID ≠ key) (h : find d key = some c) :
    c.Name = normName key ∧ ∃ l1 l2, d.containers = l1 ++ c :: l2 := by
  have h0 : d.containers.find? (fun c => c.ID == key) = none := by
    rw [List.find?_eq_none]
    intro x hx
    simpa using hid x hx
  unfold find at h
  rw [h0] at h
  simp only [] at h
  rw [List.find?_eq_some] at h
  obtain ⟨hn, l1, l2, hl, _⟩ := h
  exact ⟨by simpa using hn, l1, l2, hl⟩

theorem modify_containers {d : State} {pre post : List Container} {a : Container}
    (h : d.containers = pre ++ a :: post) (hpre : ∀ x ∈ pre, x.ID ≠ a.ID)
    (hpost : ∀ x ∈ post, x.ID ≠ a.ID) (f : Container → Container) :
    (modify d a.ID f).containers = pre ++ f a :: post := by
  have hm : ∀ l : List Container, (∀ x ∈ l, x.ID ≠ a.ID) →
      l.map (fun c => if c.ID == a.ID then f c else c) = l := by
    intro l hl
    induction l with
    | nil => rfl
    | cons x l ih =>
      rw [List.map_cons, ih (fun y hy => hl y (List.mem_cons_of_mem _ hy))]
      have := hl x (List.mem_cons_self _ _)
      simp [this]
  unfold modify
  simp only []
  rw [h, List.map_append, List.map_cons, hm pre hpre, hm post hpost]
  simp

theorem filter_containers {pre post : List Container} {a : Container}
    (hpre : ∀ x ∈ pre, x.ID ≠ a.ID) (hpost : ∀ x ∈ post, x.ID ≠ a.ID) :
    (pre ++ a :: post).filter (fun c1 => c1.ID != a.ID) = pre ++ post := by
  have hm : ∀ l : List Container, (∀ x ∈ l, x.ID ≠ a.ID) →
      l.filter (fun c1 => c1.ID != a.ID) = l := by
    intro l hl
    rw [List.filter_eq_self]
    intro x hx
    simpa using hl x hx
  rw [List.filter_append, List.filter_cons, hm pre hpre, hm post hpost]
  simp

theorem nameTaken_eq_false {d : State} {n : String}
    (h : ∀ x ∈ d.containers, x.Name ≠ normName n) : nameTaken d n = false := by
  unfold nameTaken
  rw [List.any_eq_false]
  intro x hx
  simpa using h x hx

theorem nameTaken_eq_true {d : State} {n : String}
    (h : ∃ x ∈ d.containers, x.Name = normName n) : nameTaken d n = true := by
  unfold nameTaken
  rw [List.any_eq_true]
  obtain ⟨x, hx, hn⟩ := h
  exact ⟨x, hx, by simpa using hn⟩

theorem not_mem_of_nameTaken_false {d : State} {n : String} (h : nameTaken d n = false) :
    ∀ x ∈ d.containers, x.Name ≠ normName n := by
  unfold nameTaken at h
  rw [List.any_eq_false] at h
  intro x hx
  simpa using h x hx

/-! ## The program on the reference daemon, call by call -/


theorem inspect_found {w : World State} {key : String} {c : Container}
    (hf : find w.daemon key = some c) :
    ∃ info w1, inspect client w key = (.ok info, w1) ∧ w1.daemon = w.daemon ∧
      info.ContainerJSONBase.Name = c.Name := by
  exact ⟨_, _, by
    simp only [inspect, client, ContainerInspect, hf]
    rfl, by rfl, by rfl⟩

theorem inspect_missing {w : World State} {key : String} (hf : find w.daemon key = none) :
    ∃ err w1, inspect client w key = (.error err, w1) := by
  exact ⟨_, _, by
    simp only [inspect, client, ContainerInspect, hf]
    rfl⟩

theorem find_congr {d d1 : State} (h : d1.containers = d.containers) (key : String) :
    find d1 key = find d key := by
  unfold find
  rw [h]

theorem copyFileFromContainer_found {w : World State} {cid file : String} {c : Container}
    (hf : find w.daemon cid = some c) (hr : readable w.daemon c.ID file) :
    ∃ r w1, copyFileFromContainer client w cid file = (.ok r, w1) ∧
      w1.daemon.containers = w.daemon.containers ∧ w1.daemon.nextID = w.daemon.nextID ∧
      w1.daemon.missing = w.daemon.missing := by
  have hr1 : ¬ (c.ID, file) ∈ w.daemon.missing := hr
  exact ⟨_, _, by
    simp only [copyFileFromContainer, client, CopyFromContainer, hf, hr1, if_false]
    rfl, by rfl, by rfl, by rfl⟩

theorem copyFileFromContainer_unreadable {w : World State} {cid file : String} {c : Container}
    (hf : find w.daemon cid = some c) (hr : ¬ readable w.daemon c.ID file) :
    ∃ err w1, copyFileFromContainer client w cid file = (.error err, w1) := by
  have hr1 : (c.ID, file) ∈ w.daemon.missing := by
    unfold readable at hr
    exact not_not.1 hr
  exact ⟨_, _, by
    simp only [copyFileFromContainer, client, CopyFromContainer, hf, hr1, if_true]
    rfl⟩

theorem extractLoop_found (cid : String) :
    ∀ (files : List String) (w : World State) (contents : List ReadCloser) (c : Container),
      find w.daemon cid = some c → (∀ p ∈ files, readable w.daemon c.ID p) →
      ∃ rs w1, extractLoop client cid files w contents = (.ok rs, w1) ∧
        w1.daemon.containers = w.daemon.containers ∧ w1.daemon.nextID = w.daemon.nextID := by
  intro files
  induction files with
  | nil =>
    intro w contents c _ _
    exact ⟨contents, w, rfl, rfl, rfl⟩
  | cons file files ih =>
    intro w contents c hf hr
    obtain ⟨r, wa, h1, hca, hna, hma⟩ :=
      copyFileFromContainer_found hf (hr file (List.mem_cons_self _ _))
    have hr1 : ∀ p ∈ files, readable wa.daemon c.ID p := by
      intro p hp
      have := hr p (List.mem_cons_of_mem _ hp)
      unfold readable at this ⊢
      rw [hma]; exact this
    obtain ⟨rs, w1, h2, hc, hn⟩ := ih wa (contents ++ [r]) c
      (by rw [find_congr hca]; exact hf) hr1
    exact ⟨rs, w1, by rw [extractLoop, h1]; exact h2, by rw [hc, hca], by rw [hn, hna]⟩

theorem extractLoop_unreadable (cid : String) :
    ∀ (files : List String) (w : World State) (contents : List ReadCloser) (c : Container),
      find w.daemon cid = some c → (∃ p ∈ files, ¬ readable w.daemon c.ID p) →
      ∃ err w1, extractLoop client cid files w contents = (.error err, w1) := by
  intro files
  induction files with
  | nil =>
    intro w contents c _ h
    obtain ⟨p, hp, _⟩ := h
    simp at hp
  | cons file files ih =>
    intro w contents c hf hr
    by_cases hfile : readable w.daemon c.ID file
    · obtain ⟨r, wa, h1, hca, _, hma⟩ := copyFileFromContainer_found hf hfile
      have hr1 : ∃ p ∈ files, ¬ readable wa.daemon c.ID p := by
        obtain ⟨p, hp, hnr⟩ := hr
        rcases List.mem_cons.1 hp with h | h
        · rw [h] at hnr; exact absurd hfile hnr
        · refine ⟨p, h, ?_⟩
          unfold readable at hnr ⊢
          rw [hma]; exact hnr
      obtain ⟨err, w1, h2⟩ := ih wa (contents ++ [r]) c (by rw [find_congr hca]; exact hf) hr1
      exact ⟨err, w1, by rw [extractLoop, h1]; exact h2⟩
    · obtain ⟨err, wa, h1⟩ := copyFileFromContainer_unreadable hf hfile
      exact ⟨err, wa, by rw [extractLoop, h1]⟩

theorem injectLoop_found (opts : options) (cid : String) :
    ∀ (rs : List ReadCloser) (i : Nat) (w : World State) (c : Container),
      find w.daemon cid = some c →
      ∃ w1, injectLoop client opts cid i rs w = (none, w1) ∧ w1.daemon = w.daemon := by
  intro rs
  induction rs with
  | nil =>
    intro i w c _
    exact ⟨w, rfl, rfl⟩
  | cons r rs ih =>
    intro i w c hf
    have h1 : ∃ wa, copyFileToContainer client w cid
        (filepath.Dir (opts.CopyFiles.getD i "")) r = (none, wa) ∧ wa.daemon = w.daemon :=
      ⟨_, by
        simp only [copyFileToContainer, client, CopyToContainer, hf]
        rfl, by rfl⟩
    obtain ⟨wa, h1, hwa⟩ := h1
    obtain ⟨w1, h2, hd⟩ := ih (i + 1) wa c (by rw [hwa]; exact hf)
    exact ⟨w1, by rw [injectLoop, h1]; exact h2, by rw [hd, hwa]⟩

theorem create_free (opts : options) {w : World State} {info : ContainerJSON}
    (h : nameTaken w.daemon (info.ContainerJSONBase.Name ++ newContainerSuffix) = false) :
    ∃ w1 c1, create client opts w info = (.ok ⟨genID w.daemon.nextID, []⟩, w1) ∧
      w1.daemon.containers = w.daemon.containers ++ [c1] ∧
      w1.daemon.nextID = w.daemon.nextID + 1 ∧ c1.ID = genID w.daemon.nextID ∧
      c1.Name = normName (info.ContainerJSONBase.Name ++ newContainerSuffix) ∧
      c1.Running = false := by
  exact ⟨_, _, by
    simp only [create, client, ContainerCreate, h]
    rfl, by rfl, by rfl, by rfl, by rfl, by rfl⟩

theorem create_taken (opts : options) {w : World State} {info : ContainerJSON}
    (h : nameTaken w.daemon (info.ContainerJSONBase.Name ++ newContainerSuffix) = true) :
    ∃ err w1, create client opts w info = (.error err, w1) := by
  exact ⟨_, _, by
    simp only [create, client, ContainerCreate, h]
    rfl⟩

theorem stop_found {w : World State} {key : String} {c : Container}
    (hf : find w.daemon key = some c) :
    ∃ w1, stop client w key = (none, w1) ∧
      w1.daemon = modify w.daemon c.ID Container.stopped := by
  exact ⟨_, by
    simp only [stop, client, ContainerStop, hf]
    rfl, by rfl⟩

theorem start_found {w : World State} {key : String} {c : Container}
    (hf : find w.daemon key = some c) :
    ∃ w1, start client w key = (none, w1) ∧
      w1.daemon = modify w.daemon c.ID Container.started := by
  exact ⟨_, by
    simp only [start, client, ContainerStart, hf]
    rfl, by rfl⟩

theorem rename_conflict {w : World State} {name : String} {c : Container}
    (hf : find w.daemon name = some c)
    (ht : nameTaken w.daemon (name ++ oldContainerSuffix) = true) :
    ∃ w1, rename client w name = (some (nameConflict (name ++ oldContainerSuffix)), w1) ∧
      w1.trace = w.trace ++ [⟨.ContainerRename name (name ++ oldContainerSuffix),
        .error (nameConflict (name ++ oldContainerSuffix))⟩] := by
  exact ⟨_, by
    simp only [rename, client, ContainerRename, hf, ht]
    rfl, by rfl⟩

theorem rename_done {w : World State} {name : String} {c c2 : Container}
    (hf : find w.daemon name = some c)
    (ht : nameTaken w.daemon (name ++ oldContainerSuffix) = false)
    (hf2 : find (modify w.daemon c.ID
        (fun c => c.renamed (normName (name ++ oldContainerSuffix))))
        (name ++ newContainerSuffix) = some c2)
    (ht2 : nameTaken (modify w.daemon c.ID
        (fun c => c.renamed (normName (name ++ oldContainerSuffix)))) name = false) :
    ∃ w1, rename client w name = (none, w1) ∧
      w1.daemon = modify (modify w.daemon c.ID
        (fun c => c.renamed (normName (name ++ oldContainerSuffix)))) c2.ID
        (fun c => c.renamed (normName name)) := by
  exact ⟨_, by
    simp only [rename, client, ContainerRename, hf, ht, Bool.false_eq_true, ↓reduceIte, hf2, ht2]
    rfl, by rfl⟩

theorem remove_stopped {w : World State} {name : String} {c : Container}
    (hf : find w.daemon (name ++ oldContainerSuffix) = some c) (hr : c.Running = false) :
    ∃ w1, remove client w name = (none, w1) ∧
      w1.daemon.containers = w.daemon.containers.filter (fun c1 => c1.ID != c.ID) ∧
      w1.daemon.nextID = w.daemon.nextID := by
  exact ⟨_, by
    simp only [remove, client, ContainerRemove, hf, hr]
    rfl, by rfl, by rfl⟩

/-! ## One whole run on the reference daemon -/


/-- A run on a daemon whose containers are `l1 ++ c0 :: l2`, where `c0` carries the
name given on the command line and lets every requested path be copied out, no
other container carries that name or the name of the replacement, and no ID
reads as one of the names involved.  When some container is named
`<name>_oldContainer` the run returns 1 and its last call is the first rename,
answered with a name conflict; otherwise it returns 0 and leaves the
replacement, under the name given, at the end of the list, with the original
removed (with `--rm`) or renamed (without). -/
theorem run_on_frame (opts : options) (w : World State) (l1 l2 : List Container)
    (c0 : Container)
    (hd : w.daemon.containers = l1 ++ c0 :: l2)
    (hname : c0.Name = normName opts.PosArgs.ContainerID)
    (hgen : ∀ k, genID k ≠ opts.PosArgs.ContainerID)
    (hc0 : c0.ID ≠ opts.PosArgs.ContainerID ∧
      c0.ID ≠ opts.PosArgs.ContainerID ++ newContainerSuffix ∧
      c0.ID ≠ opts.PosArgs.ContainerID ++ oldContainerSuffix ∧
      c0.ID ≠ genID w.daemon.nextID)
    (hframe : ∀ x ∈ l1 ++ l2,
      x.ID ≠ c0.ID ∧ x.ID ≠ opts.PosArgs.ContainerID ∧
      x.ID ≠ opts.PosArgs.ContainerID ++ newContainerSuffix ∧
      x.ID ≠ opts.PosArgs.ContainerID ++ oldContainerSuffix ∧
      x.ID ≠ genID w.daemon.nextID ∧
      x.Name ≠ normName opts.PosArgs.ContainerID ∧
      x.Name ≠ normName opts.PosArgs.ContainerID ++ newContainerSuffix)
    (hread : ∀ p ∈ opts.CopyFiles, readable w.daemon c0.ID p) :
    ((∃ x ∈ l1 ++ l2, x.Name = normName opts.PosArgs.ContainerID ++ oldContainerSuffix) →
      (execBody client opts w).1 = 1 ∧
      (execBody client opts w).2.trace.getLast? =
        some ⟨.ContainerRename opts.PosArgs.ContainerID
            (opts.PosArgs.ContainerID ++ oldContainerSuffix),
          .error (nameConflict (opts.PosArgs.ContainerID ++ oldContainerSuffix))⟩) ∧
    ((∀ x ∈ l1 ++ l2, x.Name ≠ normName opts.PosArgs.ContainerID ++ oldContainerSuffix) →
      (execBody client opts w).1 = 0 ∧
      (execBody client opts w).2.daemon.nextID = w.daemon.nextID + 1 ∧
      ∃ c0' c1, c0'.ID = c0.ID ∧
        c0'.Name = normName opts.PosArgs.ContainerID ++ oldContainerSuffix ∧
        c1.ID = genID w.daemon.nextID ∧ c1.Name = normName opts.PosArgs.ContainerID ∧
        (execBody client opts w).2.daemon.containers =
          (if opts.RemoveOldContainer then l1 ++ l2 else l1 ++ c0' :: l2) ++ [c1]) := by
  have hf1 : ∀ x ∈ l1, _ := fun x hx => hframe x (List.mem_append_left _ hx)
  have hf2 : ∀ x ∈ l2, _ := fun x hx => hframe x (List.mem_append_right _ hx)
  have hNnew : normName opts.PosArgs.ContainerID ≠
      normName opts.PosArgs.ContainerID ++ newContainerSuffix :=
    fun h => append_suffix_ne _ _ (by decide) h.symm
  have hNold : normName opts.PosArgs.ContainerID ≠
      normName opts.PosArgs.ContainerID ++ oldContainerSuffix :=
    fun h => append_suffix_ne _ _ (by decide) h.symm
  have hnewold := new_ne_old (normName opts.PosArgs.ContainerID)
  -- 1. inspect
  have hfind1 : find w.daemon opts.PosArgs.ContainerID = some c0 := by
    refine find_of_name hd ?_ (fun x hx => (hf1 x hx).2.2.2.2.2.1) hname
    intro x hx
    rw [hd] at hx
    simp only [List.mem_append, List.mem_cons, List.mem_singleton, List.not_mem_nil, or_false] at hx
    rcases hx with h | h | h
    · exact (hf1 x h).2.1
    · rw [h]; exact hc0.1
    · exact (hf2 x h).2.1
  obtain ⟨info, w1, e1, hw1, hinfo⟩ := inspect_found hfind1
  -- 2. the copy-outs
  obtain ⟨contents, w2, e2, hc2, hn2⟩ :=
    extractLoop_found opts.PosArgs.ContainerID opts.CopyFiles w1 [] c0
      (by rw [hw1]; exact hfind1) (by rw [hw1]; exact hread)
  rw [hw1] at hc2 hn2
  -- 3. create
  have hinfoN : info.ContainerJSONBase.Name ++ newContainerSuffix =
      normName opts.PosArgs.ContainerID ++ newContainerSuffix := by rw [hinfo, hname]
  have ht3 : nameTaken w2.daemon (info.ContainerJSONBase.Name ++ newContainerSuffix) = false := by
    apply nameTaken_eq_false
    rw [hinfoN, normName_norm_append, hc2, hd]
    intro x hx
    simp only [List.mem_append, List.mem_cons, List.mem_singleton, List.not_mem_nil, or_false] at hx
    rcases hx with h | h | h
    · exact (hf1 x h).2.2.2.2.2.2
    · rw [h, hname]; exact hNnew
    · exact (hf2 x h).2.2.2.2.2.2
  obtain ⟨w3, c1, e3, hc3, hn3, hid1, hnm1, hr1⟩ := create_free opts ht3
  rw [hinfoN, normName_norm_append] at hnm1
  rw [hn2] at hid1 hn3 e3
  have hc3' : w3.daemon.containers = l1 ++ c0 :: (l2 ++ [c1]) := by
    rw [hc3, hc2, hd]; simp
  -- 4. stop
  have hfind4 : find w3.daemon opts.PosArgs.ContainerID = some c0 := by
    refine find_of_name hc3' ?_ (fun x hx => (hf1 x hx).2.2.2.2.2.1) hname
    intro x hx
    rw [hc3'] at hx
    simp only [List.mem_append, List.mem_cons, List.mem_singleton, List.not_mem_nil,
      or_false] at hx
    rcases hx with h | h | h | h
    · exact (hf1 x h).2.1
    · rw [h]; exact hc0.1
    · exact (hf2 x h).2.1
    · rw [h, hid1]; exact hgen _
  obtain ⟨w4, e4, hw4⟩ := stop_found hfind4
  have hc4 : w4.daemon.containers = (l1 ++ c0.stopped :: l2) ++ c1 :: [] := by
    rw [hw4, modify_containers hc3' (fun x hx => (hf1 x hx).1) (by
      intro x hx
      simp only [List.mem_append, List.mem_cons, List.mem_singleton, List.not_mem_nil,
        or_false] at hx
      rcases hx with h | h
      · exact (hf2 x h).1
      · rw [h, hid1]; exact fun e => hc0.2.2.2 e.symm)]
    simp
  have hn4 : w4.daemon.nextID = w.daemon.nextID + 1 := by rw [hw4]; exact hn3
  -- 5. start
  have hpre5 : ∀ x ∈ l1 ++ c0.stopped :: l2, x.ID ≠ genID w.daemon.nextID := by
    intro x hx
    simp only [List.mem_append, List.mem_cons, List.mem_singleton, List.not_mem_nil,
      or_false] at hx
    rcases hx with h | h | h
    · exact (hf1 x h).2.2.2.2.1
    · rw [h]; exact hc0.2.2.2
    · exact (hf2 x h).2.2.2.2.1
  have hfind5 : find w4.daemon (genID w.daemon.nextID) = some c1 := find_of_id hc4 hpre5 hid1
  obtain ⟨w5, e5, hw5⟩ := start_found hfind5
  have hc5 : w5.daemon.containers = (l1 ++ c0.stopped :: l2) ++ c1.started :: [] := by
    rw [hw5, modify_containers hc4 (by rw [hid1]; exact hpre5) (by simp)]
  have hn5 : w5.daemon.nextID = w.daemon.nextID + 1 := by rw [hw5]; exact hn4
  -- 6. the copy-ins
  have hfind6 : find w5.daemon (genID w.daemon.nextID) = some c1.started :=
    find_of_id hc5 hpre5 hid1
  obtain ⟨w6, e6, hw6⟩ := injectLoop_found opts (genID w.daemon.nextID) contents 0 w5 _ hfind6
  have hc6 : w6.daemon.containers = l1 ++ c0.stopped :: (l2 ++ [c1.started]) := by
    rw [hw6, hc5]; simp
  -- 7. the first rename
  have hfind7 : find w6.daemon opts.PosArgs.ContainerID = some c0.stopped := by
    refine find_of_name hc6 ?_ (fun x hx => (hf1 x hx).2.2.2.2.2.1) hname
    intro x hx
    rw [hc6] at hx
    simp only [List.mem_append, List.mem_cons, List.mem_singleton, List.not_mem_nil,
      or_false] at hx
    rcases hx with h | h | h | h
    · exact (hf1 x h).2.1
    · rw [h]; exact hc0.1
    · exact (hf2 x h).2.1
    · rw [h]; show c1.ID ≠ _; rw [hid1]; exact hgen _
  have hEerr : ∀ err w7, rename client w6 opts.PosArgs.ContainerID = (some err, w7) →
      execBody client opts w = (1, printErr w7 err) := by
    intro err w7 e7
    simp only [execBody, e1, e2, e3, e4, e5, e6, e7]
  have hErm : ∀ w7 w8, rename client w6 opts.PosArgs.ContainerID = (none, w7) →
      opts.RemoveOldContainer = true → remove client w7 opts.PosArgs.ContainerID = (none, w8) →
      execBody client opts w = (0, w8) := by
    intro w7 w8 e7 hrm e8
    simp only [execBody, e1, e2, e3, e4, e5, e6, e7, hrm, if_true, e8]
  have hEno : ∀ w7, rename client w6 opts.PosArgs.ContainerID = (none, w7) →
      ¬ opts.RemoveOldContainer = true → execBody client opts w = (0, w7) := by
    intro w7 e7 hrm
    simp only [execBody, e1, e2, e3, e4, e5, e6, e7, hrm, if_false, Bool.false_eq_true]
  refine ⟨?_, ?_⟩
  · -- some container is already called `<name>_oldContainer`
    rintro ⟨x, hx, hxn⟩
    have ht7 : nameTaken w6.daemon (opts.PosArgs.ContainerID ++ oldContainerSuffix) = true := by
      apply nameTaken_eq_true
      refine ⟨x, ?_, by rw [normName_old]; exact hxn⟩
      rw [hc6]
      simp only [List.mem_append, List.mem_cons, List.mem_singleton]
      rcases List.mem_append.1 hx with h | h
      · exact Or.inl h
      · exact Or.inr (Or.inr (Or.inl h))
    obtain ⟨w7, e7, htr7⟩ := rename_conflict hfind7 ht7
    rw [hEerr _ _ e7]
    refine ⟨rfl, ?_⟩
    show w7.trace.getLast? = _
    rw [htr7, List.getLast?_concat]
  · intro hnone
    have ht7 : nameTaken w6.daemon (opts.PosArgs.ContainerID ++ oldContainerSuffix) = false := by
      apply nameTaken_eq_false
      rw [normName_old, hc6]
      intro x hx
      simp only [List.mem_append, List.mem_cons, List.mem_singleton, List.not_mem_nil,
        or_false] at hx
      rcases hx with h | h | h | h
      · exact hnone x (List.mem_append_left _ h)
      · rw [h]; show c0.Name ≠ _; rw [hname]; exact hNold
      · exact hnone x (List.mem_append_right _ h)
      · rw [h]; show c1.Name ≠ _; rw [hnm1]; exact hnewold
    -- the daemon after the first rename
    have hc7 : (modify w6.daemon c0.stopped.ID
        (fun c => c.renamed (normName (opts.PosArgs.ContainerID ++ oldContainerSuffix)))).containers
        = (l1 ++ c0.stopped.renamed
              (normName opts.PosArgs.ContainerID ++ oldContainerSuffix) :: l2)
          ++ c1.started :: [] := by
      rw [modify_containers hc6 (fun x hx => (hf1 x hx).1) (by
        intro x hx
        simp only [List.mem_append, List.mem_cons, List.mem_singleton, List.not_mem_nil,
          or_false] at hx
        rcases hx with h | h
        · exact (hf2 x h).1
        · rw [h]; show c1.ID ≠ c0.ID; rw [hid1]; exact fun e => hc0.2.2.2 e.symm)]
      simp [normName_old]
    have hfind7b : find (modify w6.daemon c0.stopped.ID
        (fun c => c.renamed (normName (opts.PosArgs.ContainerID ++ oldContainerSuffix))))
        (opts.PosArgs.ContainerID ++ newContainerSuffix) = some c1.started := by
      refine find_of_name hc7 ?_ ?_ (by rw [normName_new]; exact hnm1)
      · intro x hx
        rw [hc7] at hx
        simp only [List.mem_append, List.mem_cons, List.mem_singleton, List.not_mem_nil,
          or_false] at hx
        rcases hx with (h | h | h) | h
        · exact (hf1 x h).2.2.1
        · rw [h]; exact hc0.2.1
        · exact (hf2 x h).2.2.1
        · rw [h]; show c1.ID ≠ _; rw [hid1]; exact genID_ne_new _ _
      · intro x hx
        rw [normName_new]
        simp only [List.mem_append, List.mem_cons, List.mem_singleton, List.not_mem_nil,
          or_false] at hx
        rcases hx with h | h | h
        · exact (hf1 x h).2.2.2.2.2.2
        · rw [h]; exact fun e => hnewold e.symm
        · exact (hf2 x h).2.2.2.2.2.2
    have ht7b : nameTaken (modify w6.daemon c0.stopped.ID
        (fun c => c.renamed (normName (opts.PosArgs.ContainerID ++ oldContainerSuffix))))
        opts.PosArgs.ContainerID = false := by
      apply nameTaken_eq_false
      rw [hc7]
      intro x hx
      simp only [List.mem_append, List.mem_cons, List.mem_singleton, List.not_mem_nil,
        or_false] at hx
      rcases hx with (h | h | h) | h
      · exact (hf1 x h).2.2.2.2.2.1
      · rw [h]; exact fun e => hNold e.symm
      · exact (hf2 x h).2.2.2.2.2.1
      · rw [h]; show c1.Name ≠ _; rw [hnm1]; exact fun e => hNnew e.symm
    obtain ⟨w7, e7, hw7⟩ := rename_done hfind7 ht7 hfind7b ht7b
    have hc8 : w7.daemon.containers =
        l1 ++ c0.stopped.renamed (normName opts.PosArgs.ContainerID ++ oldContainerSuffix) ::
          (l2 ++ [c1.started.renamed (normName opts.PosArgs.ContainerID)]) := by
      rw [hw7, modify_containers hc7 (by
        intro x hx
        show x.ID ≠ c1.ID
        rw [hid1]
        simp only [List.mem_append, List.mem_cons, List.mem_singleton, List.not_mem_nil,
          or_false] at hx
        rcases hx with h | h | h
        · exact (hf1 x h).2.2.2.2.1
        · rw [h]; exact hc0.2.2.2
        · exact (hf2 x h).2.2.2.2.1) (by simp)]
      simp
    have hn8 : w7.daemon.nextID = w.daemon.nextID + 1 := by
      rw [hw7]; show w6.daemon.nextID = _; rw [hw6]; exact hn5
    by_cases hrm : opts.RemoveOldContainer = true
    · -- 8. remove
      have hfind8 : find w7.daemon (opts.PosArgs.ContainerID ++ oldContainerSuffix) =
          some (c0.stopped.renamed
            (normName opts.PosArgs.ContainerID ++ oldContainerSuffix)) := by
        refine find_of_name hc8 ?_ ?_ (by rw [normName_old]; rfl)
        · intro x hx
          rw [hc8] at hx
          simp only [List.mem_append, List.mem_cons, List.mem_singleton, List.not_mem_nil,
            or_false] at hx
          rcases hx with h | h | h | h
          · exact (hf1 x h).2.2.2.1
          · rw [h]; exact hc0.2.2.1
          · exact (hf2 x h).2.2.2.1
          · rw [h]; show c1.ID ≠ _; rw [hid1]; exact genID_ne_old _ _
        · intro x hx
          rw [normName_old]
          exact hnone x (List.mem_append_left _ hx)
      obtain ⟨w8, e8, hc9, hn9⟩ := remove_stopped hfind8 rfl
      rw [hc8] at hc9
      have hfil := @filter_containers l1
          (l2 ++ [c1.started.renamed (normName opts.PosArgs.ContainerID)])
          (c0.stopped.renamed (normName opts.PosArgs.ContainerID ++ oldContainerSuffix))
          (fun x hx => (hf1 x hx).1) (by
            intro x hx
            simp only [List.mem_append, List.mem_cons, List.mem_singleton, List.not_mem_nil,
              or_false] at hx
            rcases hx with h | h
            · exact (hf2 x h).1
            · rw [h]; show c1.ID ≠ c0.ID; rw [hid1]; exact fun e => hc0.2.2.2 e.symm)
      rw [hfil] at hc9
      have hfin : execBody client opts w = (0, w8) := hErm _ _ e7 hrm e8
      rw [hfin]
      refine ⟨rfl, by rw [hn9]; exact hn8,
        c0.stopped.renamed (normName opts.PosArgs.ContainerID ++ oldContainerSuffix),
        c1.started.renamed (normName opts.PosArgs.ContainerID), rfl, rfl, hid1, rfl, ?_⟩
      rw [if_pos hrm, hc9]; simp
    · have hfin : execBody client opts w = (0, w7) := hEno _ e7 hrm
      rw [hfin]
      refine ⟨rfl, hn8,
        c0.stopped.renamed (normName opts.PosArgs.ContainerID ++ oldContainerSuffix),
        c1.started.renamed (normName opts.PosArgs.ContainerID), rfl, rfl, hid1, rfl, ?_⟩
      rw [if_neg hrm, hc8]; simp


theorem run_no_source (opts : options) (w : World State)
    (hf : find w.daemon opts.PosArgs.ContainerID = none) :
    (execBody client opts w).1 = 1 := by
  obtain ⟨err, w1, e1⟩ := inspect_missing hf
  simp only [execBody, e1]

theorem nameTaken_congr {d d1 : State} (h : d1.containers = d.containers) (n : String) :
    nameTaken d1 n = nameTaken d n := by
  unfold nameTaken
  rw [h]

theorem run_unreadable (opts : options) (w : World State) {c0 : Container}
    (hf : find w.daemon opts.PosArgs.ContainerID = some c0)
    (hr : ∃ p ∈ opts.CopyFiles, ¬ readable w.daemon c0.ID p) :
    (execBody client opts w).1 = 1 := by
  obtain ⟨info, w1, e1, hw1, _⟩ := inspect_found hf
  obtain ⟨err, w2, e2⟩ :=
    extractLoop_unreadable opts.PosArgs.ContainerID opts.CopyFiles w1 [] c0
      (by rw [hw1]; exact hf) (by rw [hw1]; exact hr)
  simp only [execBody, e1, e2]

theorem run_new_taken (opts : options) (w : World State) {c0 : Container}
    (hf : find w.daemon opts.PosArgs.ContainerID = some c0)
    (ht : nameTaken w.daemon (c0.Name ++ newContainerSuffix) = true) :
    (execBody client opts w).1 = 1 := by
  by_cases hread : ∀ p ∈ opts.CopyFiles, readable w.daemon c0.ID p
  · obtain ⟨info, w1, e1, hw1, hinfo⟩ := inspect_found hf
    obtain ⟨contents, w2, e2, hc2, _⟩ :=
      extractLoop_found opts.PosArgs.ContainerID opts.CopyFiles w1 [] c0
        (by rw [hw1]; exact hf) (by rw [hw1]; exact hread)
    rw [hw1] at hc2
    have ht2 : nameTaken w2.daemon (info.ContainerJSONBase.Name ++ newContainerSuffix) = true := by
      rw [nameTaken_congr hc2, hinfo]; exact ht
    obtain ⟨err, w3, e3⟩ := create_taken opts ht2
    simp only [execBody, e1, e2, e3]
  · push_neg at hread
    exact run_unreadable opts w hf hread

/-- On a well-formed daemon, after a successful run against a name: a second run
against the same name succeeds exactly when the first one removed the original
and the daemon lets every requested path be copied out of the container the
first run created; the name designates that container; and without `--rm` a
container named `<name>_oldContainer` is still there and the second run fails,
at the first rename with a name conflict when its copy-outs succeed. -/
theorem second_run (opts : options) (d : State) (hwf : WF d)
    (hkey : NameNotID d opts.PosArgs.ContainerID)
    (h1 : (execBody client opts (World.init d)).1 = 0) :
    ((execBody client opts
        (World.init (execBody client opts (World.init d)).2.daemon)).1 = 0 ↔
      (opts.RemoveOldContainer = true ∧
        ∀ p ∈ opts.CopyFiles,
          readable (execBody client opts (World.init d)).2.daemon (genID d.nextID) p)) ∧
    (find (execBody client opts (World.init d)).2.daemon opts.PosArgs.ContainerID).map
      (fun c => c.ID) = some (genID d.nextID) ∧
    (opts.RemoveOldContainer = false →
      (∃ c ∈ (execBody client opts (World.init d)).2.daemon.containers,
        c.Name = normName opts.PosArgs.ContainerID ++ oldContainerSuffix) ∧
      (execBody client opts
        (World.init (execBody client opts (World.init d)).2.daemon)).1 = 1 ∧
      ((∀ p ∈ opts.CopyFiles,
          readable (execBody client opts (World.init d)).2.daemon (genID d.nextID) p) →
        (execBody client opts
          (World.init (execBody client opts (World.init d)).2.daemon)).2.trace.getLast? =
          some ⟨.ContainerRename opts.PosArgs.ContainerID
              (opts.PosArgs.ContainerID ++ oldContainerSuffix),
            .error (nameConflict (opts.PosArgs.ContainerID ++ oldContainerSuffix))⟩)) := by
  obtain ⟨hnames, hids, hfresh⟩ := hwf
  obtain ⟨hgen, hk⟩ := hkey
  have hidK : ∀ x ∈ d.containers, x.ID ≠ opts.PosArgs.ContainerID := fun x hx => (hk x hx).1
  cases hfind : find d opts.PosArgs.ContainerID with
  | none =>
    have := run_no_source opts (World.init d) hfind
    rw [h1] at this
    exact absurd this (by decide)
  | some c0 =>
    obtain ⟨hname, l1, l2, hd⟩ := find_some_name hidK hfind
    have hc0mem : c0 ∈ d.containers := by rw [hd]; simp
    rw [hd, List.pairwise_append, List.pairwise_cons] at hnames hids
    have hnew : ∀ x ∈ d.containers,
        x.Name ≠ normName opts.PosArgs.ContainerID ++ newContainerSuffix := by
      by_contra hcon
      push_neg at hcon
      obtain ⟨x, hx, hxn⟩ := hcon
      have ht : nameTaken d (c0.Name ++ newContainerSuffix) = true :=
        nameTaken_eq_true ⟨x, hx, by rw [hname, normName_norm_append]; exact hxn⟩
      have := run_new_taken opts (World.init d) hfind ht
      rw [h1] at this
      exact absurd this (by decide)
    have hframe : ∀ x ∈ l1 ++ l2,
        x.ID ≠ c0.ID ∧ x.ID ≠ opts.PosArgs.ContainerID ∧
        x.ID ≠ opts.PosArgs.ContainerID ++ newContainerSuffix ∧
        x.ID ≠ opts.PosArgs.ContainerID ++ oldContainerSuffix ∧
        x.ID ≠ genID d.nextID ∧
        x.Name ≠ normName opts.PosArgs.ContainerID ∧
        x.Name ≠ normName opts.PosArgs.ContainerID ++ newContainerSuffix := by
      intro x hx
      have hxd : x ∈ d.containers := by
        rw [hd]
        rcases List.mem_append.1 hx with h | h
        · exact List.mem_append_left _ h
        · exact List.mem_append_right _ (List.mem_cons_of_mem _ h)
      refine ⟨?_, (hk x hxd).1, (hk x hxd).2.1, (hk x hxd).2.2, hfresh x hxd _ (le_refl _), ?_,
        hnew x hxd⟩
      · rcases List.mem_append.1 hx with h | h
        · exact hids.2.2 x h c0 (List.mem_cons_self _ _)
        · exact fun e => hids.2.1.1 x h e.symm
      · rw [← hname]
        rcases List.mem_append.1 hx with h | h
        · exact hnames.2.2 x h c0 (List.mem_cons_self _ _)
        · exact fun e => hnames.2.1.1 x h e.symm
    have hc0 : c0.ID ≠ opts.PosArgs.ContainerID ∧
        c0.ID ≠ opts.PosArgs.ContainerID ++ newContainerSuffix ∧
        c0.ID ≠ opts.PosArgs.ContainerID ++ oldContainerSuffix ∧ c0.ID ≠ genID d.nextID :=
      ⟨(hk c0 hc0mem).1, (hk c0 hc0mem).2.1, (hk c0 hc0mem).2.2,
        hfresh c0 hc0mem _ (le_refl _)⟩
    have hread1 : ∀ p ∈ opts.CopyFiles, readable (World.init d).daemon c0.ID p := by
      by_contra hcon
      push_neg at hcon
      have := run_unreadable opts (World.init d) hfind hcon
      rw [h1] at this
      exact absurd this (by decide)
    obtain ⟨hA, hB⟩ := run_on_frame opts (World.init d) l1 l2 c0 hd hname hgen hc0 hframe hread1
    have hnoold : ∀ x ∈ l1 ++ l2,
        x.Name ≠ normName opts.PosArgs.ContainerID ++ oldContainerSuffix := by
      by_contra hcon
      push_neg at hcon
      have := (hA hcon).1
      rw [h1] at this
      exact absurd this (by decide)
    obtain ⟨_, hn1, c0', c1, hc0id, hc0n, hc1id, hc1n, hcs⟩ := hB hnoold
    have hn1' : (execBody client opts (World.init d)).2.daemon.nextID = d.nextID + 1 := hn1
    have hc1id' : c1.ID = genID d.nextID := hc1id
    have hNnew : normName opts.PosArgs.ContainerID ≠
        normName opts.PosArgs.ContainerID ++ newContainerSuffix :=
      fun h => append_suffix_ne _ _ (by decide) h.symm
    have hNold : normName opts.PosArgs.ContainerID ≠
        normName opts.PosArgs.ContainerID ++ oldContainerSuffix :=
      fun h => append_suffix_ne _ _ (by decide) h.symm
    have hc1 : c1.ID ≠ opts.PosArgs.ContainerID ∧
        c1.ID ≠ opts.PosArgs.ContainerID ++ newContainerSuffix ∧
        c1.ID ≠ opts.PosArgs.ContainerID ++ oldContainerSuffix ∧
        c1.ID ≠ genID (World.init (execBody client opts (World.init d)).2.daemon).daemon.nextID := by
      rw [hc1id']
      refine ⟨hgen _, genID_ne_new _ _, genID_ne_old _ _, ?_⟩
      show genID d.nextID ≠ genID (execBody client opts (World.init d)).2.daemon.nextID
      rw [hn1']
      intro e
      have := genID_injective e
      omega
    -- what the first run left of the containers it found
    have hold : ∀ x ∈ l1 ++ l2,
        x.ID ≠ c1.ID ∧ x.ID ≠ opts.PosArgs.ContainerID ∧
        x.ID ≠ opts.PosArgs.ContainerID ++ newContainerSuffix ∧
        x.ID ≠ opts.PosArgs.ContainerID ++ oldContainerSuffix ∧
        x.ID ≠ genID (World.init (execBody client opts (World.init d)).2.daemon).daemon.nextID ∧
        x.Name ≠ normName opts.PosArgs.ContainerID ∧
        x.Name ≠ normName opts.PosArgs.ContainerID ++ newContainerSuffix := by
      intro x hx
      have hxd : x ∈ d.containers := by
        rw [hd]
        rcases List.mem_append.1 hx with h | h
        · exact List.mem_append_left _ h
        · exact List.mem_append_right _ (List.mem_cons_of_mem _ h)
      obtain ⟨_, h2, h3, h4, h5, h6, h7⟩ := hframe x hx
      refine ⟨by rw [hc1id']; exact h5, h2, h3, h4, ?_, h6, h7⟩
      show x.ID ≠ genID (execBody client opts (World.init d)).2.daemon.nextID
      rw [hn1']
      exact hfresh x hxd _ (by omega)
    by_cases hrm : opts.RemoveOldContainer = true
    · rw [if_pos hrm] at hcs
      have hcs' : (World.init (execBody client opts (World.init d)).2.daemon).daemon.containers =
          (l1 ++ l2) ++ c1 :: [] := hcs
      have hfr : ∀ x ∈ (l1 ++ l2) ++ [], _ := fun x hx => hold x (by simpa using hx)
      have hf2 : find (execBody client opts (World.init d)).2.daemon opts.PosArgs.ContainerID =
          some c1 := by
        refine find_of_name hcs ?_ (fun x hx => (hold x hx).2.2.2.2.2.1) hc1n
        intro x hx
        rw [hcs] at hx
        simp only [List.mem_append, List.mem_cons, List.mem_singleton, List.not_mem_nil,
          or_false] at hx
        rcases hx with (h | h) | h
        · exact (hold x (List.mem_append_left _ h)).2.1
        · exact (hold x (List.mem_append_right _ h)).2.1
        · rw [h]; exact hc1.1
      refine ⟨⟨fun h => ⟨hrm, ?_⟩, fun h => ?_⟩, by rw [hf2]; simp [hc1id'],
        fun hno => absurd hrm (by rw [hno]; decide)⟩
      · by_contra hcon
        push_neg at hcon
        have := run_unreadable opts
          (World.init (execBody client opts (World.init d)).2.daemon) hf2
          (by rw [hc1id']; exact hcon)
        rw [h] at this
        exact absurd this (by decide)
      · obtain ⟨_, hB2⟩ := run_on_frame opts _ (l1 ++ l2) [] c1 hcs' hc1n hgen hc1 hfr
          (by rw [hc1id']; exact h.2)
        exact (hB2 (fun x hx => hnoold x (by simpa using hx))).1
    · rw [if_neg hrm] at hcs
      have hcs' : (World.init (execBody client opts (World.init d)).2.daemon).daemon.containers =
          (l1 ++ c0' :: l2) ++ c1 :: [] := hcs
      have hc0' : c0'.ID ≠ c1.ID ∧ c0'.ID ≠ opts.PosArgs.ContainerID ∧
          c0'.ID ≠ opts.PosArgs.ContainerID ++ newContainerSuffix ∧
          c0'.ID ≠ opts.PosArgs.ContainerID ++ oldContainerSuffix ∧
          c0'.ID ≠ genID
            (World.init (execBody client opts (World.init d)).2.daemon).daemon.nextID ∧
          c0'.Name ≠ normName opts.PosArgs.ContainerID ∧
          c0'.Name ≠ normName opts.PosArgs.ContainerID ++ newContainerSuffix := by
        rw [hc0id, hc0n, hc1id']
        refine ⟨hc0.2.2.2, hc0.1, hc0.2.1, hc0.2.2.1, ?_, fun e => hNold e.symm,
          fun e => new_ne_old _ e.symm⟩
        show c0.ID ≠ genID (execBody client opts (World.init d)).2.daemon.nextID
        rw [hn1']
        exact hfresh c0 hc0mem _ (by omega)
      have hfr : ∀ x ∈ (l1 ++ c0' :: l2) ++ [],
          x.ID ≠ c1.ID ∧ x.ID ≠ opts.PosArgs.ContainerID ∧
          x.ID ≠ opts.PosArgs.ContainerID ++ newContainerSuffix ∧
          x.ID ≠ opts.PosArgs.ContainerID ++ oldContainerSuffix ∧
          x.ID ≠ genID
            (World.init (execBody client opts (World.init d)).2.daemon).daemon.nextID ∧
          x.Name ≠ normName opts.PosArgs.ContainerID ∧
          x.Name ≠ normName opts.PosArgs.ContainerID ++ newContainerSuffix := by
        intro x hx
        simp only [List.mem_append, List.mem_cons, List.mem_singleton, List.not_mem_nil,
          or_false] at hx
        rcases hx with h | h | h
        · exact hold x (List.mem_append_left _ h)
        · rw [h]; exact hc0'
        · exact hold x (List.mem_append_right _ h)
      have hf2 : find (execBody client opts (World.init d)).2.daemon
          opts.PosArgs.ContainerID = some c1 := by
        refine find_of_name hcs ?_ (fun x hx => (hfr x (by simpa using hx)).2.2.2.2.2.1) hc1n
        intro x hx
        rw [hcs] at hx
        simp only [List.mem_append, List.mem_cons, List.mem_singleton, List.not_mem_nil,
          or_false] at hx
        rcases hx with (h | h | h) | h
        · exact (hold x (List.mem_append_left _ h)).2.1
        · rw [h]; exact hc0'.2.1
        · exact (hold x (List.mem_append_right _ h)).2.1
        · rw [h]; exact hc1.1
      have hconfl : (∀ p ∈ opts.CopyFiles,
          readable (execBody client opts (World.init d)).2.daemon (genID d.nextID) p) →
          (execBody client opts
            (World.init (execBody client opts (World.init d)).2.daemon)).1 = 1 ∧
          (execBody client opts
            (World.init (execBody client opts (World.init d)).2.daemon)).2.trace.getLast? =
            some ⟨.ContainerRename opts.PosArgs.ContainerID
                (opts.PosArgs.ContainerID ++ oldContainerSuffix),
              .error (nameConflict (opts.PosArgs.ContainerID ++ oldContainerSuffix))⟩ := by
        intro hr2
        obtain ⟨hA2, _⟩ := run_on_frame opts _ (l1 ++ c0' :: l2) [] c1 hcs' hc1n hgen hc1 hfr
          (by rw [hc1id']; exact hr2)
        exact hA2 ⟨c0', by simp, hc0n⟩
      have h2 : (execBody client opts
          (World.init (execBody client opts (World.init d)).2.daemon)).1 = 1 := by
        by_cases hr2 : ∀ p ∈ opts.CopyFiles,
            readable (execBody client opts (World.init d)).2.daemon (genID d.nextID) p
        · exact (hconfl hr2).1
        · push_neg at hr2
          exact run_unreadable opts
            (World.init (execBody client opts (World.init d)).2.daemon) hf2
            (by rw [hc1id']; exact hr2)
      refine ⟨⟨fun h => ?_, fun h => absurd h.1 hrm⟩, by rw [hf2]; simp [hc1id'],
        fun _ => ⟨⟨c0', by rw [hcs]; simp, hc0n⟩, h2, fun hr2 => (hconfl hr2).2⟩⟩
      rw [h2] at h
      exact absurd h (by decide)

end Daemon

/-! ## The trace is a true record of the calls made on the client -/

theorem replay_snoc {σ : Type} (cli : Client σ) (c : Call) (r : Resp) (d2 : σ) :
    ∀ (tr : List Event) (d d1 : σ), replay cli d tr = some d1 → cli.answer d1 c = (r, d2) →
      replay cli d (tr ++ [⟨c, r⟩]) = some d2 := by
  intro tr
  induction tr with
  | nil =>
    intro d d1 h hr
    simp only [replay, Option.some.injEq] at h
    subst h
    simp [replay, hr]
  | cons ev tr ih =>
    intro d d1 h hr
    simp only [List.cons_append, replay] at h ⊢
    by_cases hev : (cli.answer d ev.call).1 = ev.resp
    · rw [if_pos hev] at h ⊢
      exact ih _ _ h hr
    · rw [if_neg hev] at h
      exact absurd h (by simp)

theorem recorded_snoc {σ : Type} {cli : Client σ} {d0 : σ} {w w1 : World σ} {c : Call}
    {r : Resp} (h : Recorded cli d0 w) (ht : w1.trace = w.trace ++ [⟨c, r⟩])
    (ha : cli.answer w.daemon c = (r, w1.daemon))
    (hc : w1.closed = w.closed ++ injectedStreams [⟨c, r⟩]) : Recorded cli d0 w1 := by
  refine ⟨?_, ?_⟩
  · rw [ht]; exact replay_snoc cli c r _ _ _ _ h.1 ha
  · rw [hc, ht, h.2, injectedStreams_append]

theorem printErr_recorded {σ : Type} {cli : Client σ} {d0 : σ} {w : World σ} (err : Err)
    (h : Recorded cli d0 w) : Recorded cli d0 (printErr w err) := h

theorem inspect_recorded {σ : Type} (cli : Client σ) (d0 : σ) (w : World σ) (cid : String)
    (h : Recorded cli d0 w) : Recorded cli d0 (inspect cli w cid).2 := by
  unfold inspect
  rcases hc : cli.ContainerInspect w.daemon cid with ⟨r, d⟩
  cases r with
  | error err =>
    exact recorded_snoc h rfl (by simp [Client.answer, hc]) (by simp [injectedStreams])
  | ok cj =>
    exact recorded_snoc h rfl (by simp [Client.answer, hc]) (by simp [injectedStreams])

theorem copyFileFromContainer_recorded {σ : Type} (cli : Client σ) (d0 : σ) (w : World σ)
    (cid fpath : String) (h : Recorded cli d0 w) :
    Recorded cli d0 (copyFileFromContainer cli w cid fpath).2 := by
  unfold copyFileFromContainer
  rcases hc : cli.CopyFromContainer w.daemon cid fpath with ⟨r, d⟩
  cases r with
  | error err =>
    exact recorded_snoc h rfl (by simp [Client.answer, hc]) (by simp [injectedStreams])
  | ok r =>
    exact recorded_snoc h rfl (by simp [Client.answer, hc]) (by simp [injectedStreams])

theorem create_recorded {σ : Type} (cli : Client σ) (d0 : σ) (opts : options) (w : World σ)
    (info : ContainerJSON) (h : Recorded cli d0 w) :
    Recorded cli d0 (create cli opts w info).2 := by
  unfold create
  simp only []
  rcases hc : cli.ContainerCreate w.daemon
      (if opts.Image != "" then { info.Config with Image := opts.Image } else info.Config)
      info.ContainerJSONBase.HostConfig { EndpointsConfig := info.NetworkSettings.Networks }
      (info.ContainerJSONBase.Name ++ newContainerSuffix) with ⟨r, d⟩
  cases r with
  | error err =>
    exact recorded_snoc h rfl (by simp only [Client.answer, hc]) (by simp [injectedStreams])
  | ok body =>
    exact recorded_snoc h rfl (by simp only [Client.answer, hc]) (by simp [injectedStreams])

theorem stop_recorded {σ : Type} (cli : Client σ) (d0 : σ) (w : World σ) (cid : String)
    (h : Recorded cli d0 w) : Recorded cli d0 (stop cli w cid).2 :=
  recorded_snoc h rfl rfl (by simp [stop, injectedStreams])

theorem start_recorded {σ : Type} (cli : Client σ) (d0 : σ) (w : World σ) (cid : String)
    (h : Recorded cli d0 w) : Recorded cli d0 (start cli w cid).2 :=
  recorded_snoc h rfl rfl (by simp [start, injectedStreams])

theorem remove_recorded {σ : Type} (cli : Client σ) (d0 : σ) (w : World σ) (name : String)
    (h : Recorded cli d0 w) : Recorded cli d0 (remove cli w name).2 :=
  recorded_snoc h rfl rfl (by simp [remove, injectedStreams])

theorem copyFileToContainer_recorded {σ : Type} (cli : Client σ) (d0 : σ) (w : World σ)
    (cid fpath : String) (r : ReadCloser) (h : Recorded cli d0 w) :
    Recorded cli d0 (copyFileToContainer cli w cid fpath r).2 :=
  recorded_snoc h rfl rfl (by simp [copyFileToContainer, injectedStreams])

theorem rename_recorded {σ : Type} (cli : Client σ) (d0 : σ) (w : World σ) (name : String)
    (h : Recorded cli d0 w) : Recorded cli d0 (rename cli w name).2 := by
  unfold rename
  rcases hc : cli.ContainerRename w.daemon name (name ++ oldContainerSuffix) with ⟨r, d⟩
  cases r with
  | some err =>
    exact recorded_snoc h rfl (by simp [Client.answer, hc, respOfErr]) (by simp [injectedStreams])
  | none =>
    have h1 : Recorded cli d0
        { w with daemon := d,
                 trace := w.trace ++
                   [⟨.ContainerRename name (name ++ oldContainerSuffix), .done⟩] } :=
      recorded_snoc h rfl (by simp [Client.answer, hc, respOfErr]) (by simp [injectedStreams])
    exact recorded_snoc h1 rfl rfl (by simp [injectedStreams])

theorem extractLoop_recorded {σ : Type} (cli : Client σ) (d0 : σ) (cid : String) :
    ∀ (files : List String) (w : World σ) (contents : List ReadCloser),
      Recorded cli d0 w → Recorded cli d0 (extractLoop cli cid files w contents).2 := by
  intro files
  induction files with
  | nil => intro w contents h; exact h
  | cons file files ih =>
    intro w contents h
    have h1 := copyFileFromContainer_recorded cli d0 w cid file h
    rw [extractLoop]
    rcases hc : copyFileFromContainer cli w cid file with ⟨r, w1⟩
    rw [hc] at h1
    cases r with
    | error err => exact h1
    | ok r => exact ih w1 _ h1

theorem injectLoop_recorded {σ : Type} (cli : Client σ) (d0 : σ) (opts : options)
    (cid : String) :
    ∀ (rs : List ReadCloser) (i : Nat) (w : World σ),
      Recorded cli d0 w → Recorded cli d0 (injectLoop cli opts cid i rs w).2 := by
  intro rs
  induction rs with
  | nil => intro i w h; exact h
  | cons r rs ih =>
    intro i w h
    have h1 := copyFileToContainer_recorded cli d0 w cid
      (filepath.Dir (opts.CopyFiles.getD i "")) r h
    rw [injectLoop]
    rcases hc : copyFileToContainer cli w cid (filepath.Dir (opts.CopyFiles.getD i "")) r with
      ⟨e, w1⟩
    rw [hc] at h1
    cases e with
    | some err => exact h1
    | none => exact ih (i + 1) w1 h1

theorem execBody_recorded {σ : Type} (cli : Client σ) (d0 : σ) (opts : options) (w : World σ)
    (h : Recorded cli d0 w) : Recorded cli d0 (execBody cli opts w).2 := by
  have h1 := inspect_recorded cli d0 w opts.PosArgs.ContainerID h
  rcases e1 : inspect cli w opts.PosArgs.ContainerID with ⟨r1, w1⟩
  rw [e1] at h1
  cases r1 with
  | error err =>
    have hE : execBody cli opts w = (1, printErr w1 err) := by simp only [execBody, e1]
    rw [hE]; exact h1
  | ok info =>
  have h2 := extractLoop_recorded cli d0 opts.PosArgs.ContainerID opts.CopyFiles w1 [] h1
  rcases e2 : extractLoop cli opts.PosArgs.ContainerID opts.CopyFiles w1 [] with ⟨r2, w2⟩
  rw [e2] at h2
  cases r2 with
  | error err =>
    have hE : execBody cli opts w = (1, printErr w2 err) := by simp only [execBody, e1, e2]
    rw [hE]; exact h2
  | ok contents =>
  have h3 := create_recorded cli d0 opts w2 info h2
  rcases e3 : create cli opts w2 info with ⟨r3, w3⟩
  rw [e3] at h3
  cases r3 with
  | error err =>
    have hE : execBody cli opts w = (1, printErr w3 err) := by simp only [execBody, e1, e2, e3]
    rw [hE]; exact h3
  | ok body =>
  have h4 := stop_recorded cli d0 w3 opts.PosArgs.ContainerID h3
  rcases e4 : stop cli w3 opts.PosArgs.ContainerID with ⟨r4, w4⟩
  rw [e4] at h4
  cases r4 with
  | some err =>
    have hE : execBody cli opts w = (1, printErr w4 err) := by
      simp only [execBody, e1, e2, e3, e4]
    rw [hE]; exact h4
  | none =>
  have h5 := start_recorded cli d0 w4 body.ID h4
  rcases e5 : start cli w4 body.ID with ⟨r5, w5⟩
  rw [e5] at h5
  cases r5 with
  | some err =>
    have hE : execBody cli opts w = (1, printErr w5 err) := by
      simp only [execBody, e1, e2, e3, e4, e5]
    rw [hE]; exact h5
  | none =>
  have h6 := injectLoop_recorded cli d0 opts body.ID contents 0 w5 h5
  rcases e6 : injectLoop cli opts body.ID 0 contents w5 with ⟨r6, w6⟩
  rw [e6] at h6
  cases r6 with
  | some err =>
    have hE : execBody cli opts w = (1, printErr w6 err) := by
      simp only [execBody, e1, e2, e3, e4, e5, e6]
    rw [hE]; exact h6
  | none =>
  have h7 := rename_recorded cli d0 w6 opts.PosArgs.ContainerID h6
  rcases e7 : rename cli w6 opts.PosArgs.ContainerID with ⟨r7, w7⟩
  rw [e7] at h7
  cases r7 with
  | some err =>
    have hE : execBody cli opts w = (1, printErr w7 err) := by
      simp only [execBody, e1, e2, e3, e4, e5, e6, e7]
    rw [hE]; exact h7
  | none =>
  by_cases hrm : opts.RemoveOldContainer = true
  · have h8 := remove_recorded cli d0 w7 opts.PosArgs.ContainerID h7
    rcases e8 : remove cli w7 opts.PosArgs.ContainerID with ⟨r8, w8⟩
    rw [e8] at h8
    cases r8 with
    | some err =>
      have hE : execBody cli opts w = (1, printErr w8 err) := by
        simp only [execBody, e1, e2, e3, e4, e5, e6, e7, hrm, if_true, e8]
      rw [hE]; exact h8
    | none =>
      have hE : execBody cli opts w = (0, w8) := by
        simp only [execBody, e1, e2, e3, e4, e5, e6, e7, hrm, if_true, e8]
      rw [hE]; exact h8
  · have hE : execBody cli opts w = (0, w7) := by
      simp only [execBody, e1, e2, e3, e4, e5, e6, e7, hrm, if_false, Bool.false_eq_true]
    rw [hE]; exact h7

/-- Every run of `exec` leaves a true record: replayed on the client the run was
given, from the daemon state it started in, the trace reproduces every
recorded answer and ends in the daemon state the run ended in; the streams
closed are those handed to copy-in calls. -/
theorem exec_recorded {σ : Type} (cli : Client σ) (opts : options) (d : σ) :
    replay cli d (exec (.ok opts) (.ok cli) (World.init d)).2.trace =
      some (exec (.ok opts) (.ok cli) (World.init d)).2.daemon ∧
    (exec (.ok opts) (.ok cli) (World.init d)).2.closed =
      injectedStreams (exec (.ok opts) (.ok cli) (World.init d)).2.trace :=
  execBody_recorded cli d opts (World.init d) ⟨rfl, rfl⟩


/-! ## The claims -/

/-- C1. Fail-fast, no compensation: in every run of `exec`, a call that returned
an error is the last call issued and `exec` returns a non-zero status; when
that call is the create, no stop call was issued at all; and the trace is a
true record: replayed on the client of the run it reproduces every answer,
the error included, and ends in the daemon state the run ended in, so that
no call was made on the client after the failing one. -/
theorem exec_fail_fast {σ : Type} (parsed : Except ParseError options)
    (newEnvClient : Except Err (Client σ)) (d : σ)
    (pre : List Event) (ev : Event) (post : List Event)
    (hrun : (exec parsed newEnvClient (World.init d)).2.trace = pre ++ ev :: post)
    (hfail : ev.failed = true) :
    post = [] ∧ (exec parsed newEnvClient (World.init d)).1 ≠ 0 ∧
    ((∃ config hostConfig networkingConfig name,
        ev.call = .ContainerCreate config hostConfig networkingConfig name) →
      ∀ e ∈ (exec parsed newEnvClient (World.init d)).2.trace,
        ∀ cid, e.call ≠ .ContainerStop cid) ∧
    (∀ cli, newEnvClient = .ok cli →
      replay cli d (pre ++ [ev]) = some (exec parsed newEnvClient (World.init d)).2.daemon) := by
  by_cases hc : ∃ opts cli, parsed = .ok opts ∧ newEnvClient = .ok cli
  · obtain ⟨opts, cli, rfl, rfl⟩ := hc
    rcases exec_cases cli opts d with
      ⟨_, info, contents, body, _, ht⟩ | ⟨h1, info, contents, body, pre0, call, resp, err, _, hp, ht⟩
    · rw [ht] at hrun
      have := successTrace_allOk opts info contents body ev (by rw [hrun]; simp)
      rw [hfail] at this
      exact absurd this (by simp)
    · obtain ⟨hok, hle, _⟩ := prefix_facts hp
      rw [ht] at hrun
      obtain ⟨hpost, hev, hpre⟩ := failed_is_last _ pre0 hok pre ev post hrun hfail
      refine ⟨hpost, by rw [h1]; decide, ?_, ?_⟩
      swap
      · intro cli1 hcli
        cases hcli
        have := (exec_recorded cli opts d).1
        rw [ht] at this
        rw [hpre, hev]
        exact this
      rintro ⟨c, hc, n, nm, hcall⟩ e he cid hstop
      rw [ht] at he
      subst hev
      simp only at hcall
      subst hcall
      simp only [List.mem_append, List.mem_singleton] at he
      rcases he with he | he
      · have := hle e he
        rw [hstop] at this
        simp [Call.step] at this
      · subst he
        simp at hstop
  · have := exec_no_client parsed newEnvClient d (fun opts cli h => hc ⟨opts, cli, h⟩)
    rw [this] at hrun
    simp at hrun

/-- C2. Step order on success: when every call of a run succeeds, the calls are
exactly inspect, one copy-out per path in list order, create, stop, start, one
copy-in per path carrying the stream of the copy-out of the same index, the
two renames, and a remove exactly when `--rm` was given; `exec` returns 0; no
copy-out comes after the stop; and the trace is a true record: replayed on the
client of the run it reproduces every answer and ends in the daemon state the
run ended in, so that these calls, and no others, were made on the client. -/
theorem exec_success_order {σ : Type} (cli : Client σ) (opts : options) (d : σ)
    (hok : allOk (exec (.ok opts) (.ok cli) (World.init d)).2.trace) :
    (exec (.ok opts) (.ok cli) (World.init d)).1 = 0 ∧
    (∃ info contents body, contents.length = opts.CopyFiles.length ∧
      (exec (.ok opts) (.ok cli) (World.init d)).2.trace =
        successTrace opts info contents body) ∧
    (∀ pre cid post,
      (exec (.ok opts) (.ok cli) (World.init d)).2.trace =
        pre ++ ⟨.ContainerStop cid, .done⟩ :: post →
      ∀ e ∈ post, ∀ c p, e.call ≠ .CopyFromContainer c p) ∧
    replay cli d (exec (.ok opts) (.ok cli) (World.init d)).2.trace =
      some (exec (.ok opts) (.ok cli) (World.init d)).2.daemon := by
  rcases exec_cases cli opts d with
    ⟨h0, info, contents, body, hl, ht⟩ | ⟨_, info, contents, body, pre0, call, resp, err, _, _, ht⟩
  · refine ⟨h0, ⟨info, contents, body, hl, ht⟩, ?_, (exec_recorded cli opts d).1⟩
    intro pre cid post hsplit e he c p hcall
    have hst := successTrace_step opts info contents body
    rw [← ht, hsplit, List.pairwise_append, List.pairwise_cons] at hst
    have := hst.2.1.1 e he
    rw [hcall] at this
    simp [Call.step] at this
  · have := hok ⟨call, .error err⟩ (by rw [ht]; simp)
    simp [Event.failed] at this

/-- C3. Configuration merge: the configuration `create` passes to the daemon has
the override image when `--image` is non-empty and the snapshot's image
otherwise, and is the snapshot's configuration in every other field; the host
configuration is the snapshot's; the endpoint map is the snapshot's network
attachment map. -/
theorem create_config_merge {σ : Type} (cli : Client σ) (opts : options) (w : World σ)
    (info : ContainerJSON) :
    ∃ config hostConfig networkingConfig name resp,
      (create cli opts w info).2.trace =
        w.trace ++ [⟨.ContainerCreate config hostConfig networkingConfig name, resp⟩] ∧
      ((create cli opts w info).1, (create cli opts w info).2.daemon) =
        cli.ContainerCreate w.daemon config hostConfig networkingConfig name ∧
      config.Image = (if opts.Image = "" then info.Config.Image else opts.Image) ∧
      { config with Image := info.Config.Image } = info.Config ∧
      hostConfig = info.ContainerJSONBase.HostConfig ∧
      networkingConfig.EndpointsConfig = info.NetworkSettings.Networks := by
  obtain ⟨resp, ht, hd⟩ := create_spec cli opts w info
  refine ⟨_, _, _, _, resp, ht, hd, ?_, ?_, rfl, rfl⟩
  · by_cases hi : opts.Image = "" <;> simp [hi]
  · by_cases hi : opts.Image = "" <;> simp [hi]

/-- C7. Replacement name: the name `create` passes to the daemon is the
snapshot's name followed by `_newContainer`, and it differs from the
snapshot's name. -/
theorem create_name {σ : Type} (cli : Client σ) (opts : options) (w : World σ)
    (info : ContainerJSON) :
    ∃ config hostConfig networkingConfig name resp,
      (create cli opts w info).2.trace =
        w.trace ++ [⟨.ContainerCreate config hostConfig networkingConfig name, resp⟩] ∧
      ((create cli opts w info).1, (create cli opts w info).2.daemon) =
        cli.ContainerCreate w.daemon config hostConfig networkingConfig name ∧
      name = info.ContainerJSONBase.Name ++ "_newContainer" ∧
      name ≠ info.ContainerJSONBase.Name := by
  obtain ⟨resp, ht, hd⟩ := create_spec cli opts w info
  exact ⟨_, _, _, _, resp, ht, hd, rfl, append_suffix_ne _ _ (by decide)⟩

/-- C6. Two-step rename: `rename` first issues `name -> name_oldContainer`; when
that fails it returns the error and issues nothing else; when it succeeds
it issues exactly one more call, `name_newContainer -> name`, and returns
that call's result. -/
theorem rename_two_step {σ : Type} (cli : Client σ) (w : World σ) (name : String) :
    ∃ first rest,
      (rename cli w name).2.trace = w.trace ++ first :: rest ∧
      first.call = .ContainerRename name (name ++ "_oldContainer") ∧
      first.resp = respOfErr (cli.ContainerRename w.daemon name (name ++ "_oldContainer")).1 ∧
      (match cli.ContainerRename w.daemon name (name ++ "_oldContainer") with
       | (some err, _) => (rename cli w name).1 = some err ∧ rest = []
       | (none, d1) =>
         rest = [⟨.ContainerRename (name ++ "_newContainer") name,
                  respOfErr (rename cli w name).1⟩] ∧
         ((rename cli w name).1, (rename cli w name).2.daemon) =
           cli.ContainerRename d1 (name ++ "_newContainer") name) := by
  have hold : name ++ "_oldContainer" = name ++ oldContainerSuffix := rfl
  have hnew : name ++ "_newContainer" = name ++ newContainerSuffix := rfl
  rw [hold, hnew]
  unfold rename
  rcases h : cli.ContainerRename w.daemon name (name ++ oldContainerSuffix) with ⟨r, d⟩
  cases r with
  | some err =>
    exact ⟨⟨.ContainerRename name (name ++ oldContainerSuffix), .error err⟩, [], rfl, rfl, rfl,
      rfl, rfl⟩
  | none =>
    exact ⟨⟨.ContainerRename name (name ++ oldContainerSuffix), .done⟩, _, by simp, rfl, rfl,
      rfl, rfl⟩

/-- C8. Removal is gated and targeted: in every run, a remove call is issued
exactly when `--rm` was given and every other call of the run, both renames
among them, succeeded; it is then issued exactly once, and never more than
once; its target is `<name>_oldContainer`; without `--rm` no remove call is
issued; and the trace is a true record: replayed on the client of the run it
reproduces every answer and ends in the daemon state the run ended in, so
that a remove in the trace is a remove made on the client, with that target,
and no remove was made that is not in the trace. -/
theorem remove_gated {σ : Type} (cli : Client σ) (opts : options) (d : σ) :
    (removeIssued (exec (.ok opts) (.ok cli) (World.init d)).2.trace ↔
      (opts.RemoveOldContainer = true ∧
       (∀ ev ∈ (exec (.ok opts) (.ok cli) (World.init d)).2.trace,
          (∀ x, ev.call ≠ .ContainerRemove x) → ev.failed = false) ∧
       ⟨.ContainerRename opts.PosArgs.ContainerID
          (opts.PosArgs.ContainerID ++ "_oldContainer"), .done⟩
          ∈ (exec (.ok opts) (.ok cli) (World.init d)).2.trace ∧
       ⟨.ContainerRename (opts.PosArgs.ContainerID ++ "_newContainer")
          opts.PosArgs.ContainerID, .done⟩
          ∈ (exec (.ok opts) (.ok cli) (World.init d)).2.trace)) ∧
    removeCount (exec (.ok opts) (.ok cli) (World.init d)).2.trace ≤ 1 ∧
    (removeIssued (exec (.ok opts) (.ok cli) (World.init d)).2.trace →
      removeCount (exec (.ok opts) (.ok cli) (World.init d)).2.trace = 1) ∧
    (∀ ev ∈ (exec (.ok opts) (.ok cli) (World.init d)).2.trace, ∀ x,
      ev.call = .ContainerRemove x → x = opts.PosArgs.ContainerID ++ "_oldContainer") ∧
    (opts.RemoveOldContainer = false →
      ¬ removeIssued (exec (.ok opts) (.ok cli) (World.init d)).2.trace) ∧
    replay cli d (exec (.ok opts) (.ok cli) (World.init d)).2.trace =
      some (exec (.ok opts) (.ok cli) (World.init d)).2.daemon := by
  have hshape : (∃ info contents body,
        (exec (.ok opts) (.ok cli) (World.init d)).2.trace =
          successTrace opts info contents body) ∨
      (∃ info contents body pre call resp err,
        pre ++ [⟨call, resp⟩] <+: successTrace opts info contents body ∧
        (exec (.ok opts) (.ok cli) (World.init d)).2.trace = pre ++ [⟨call, .error err⟩]) := by
    rcases exec_cases cli opts d with
      ⟨_, info, contents, body, _, ht⟩ |
      ⟨_, info, contents, body, pre, call, resp, err, _, hp, ht⟩
    · exact Or.inl ⟨info, contents, body, ht⟩
    · exact Or.inr ⟨info, contents, body, pre, call, resp, err, hp, ht⟩
  obtain ⟨h1, h2, h3, h4⟩ := remove_facts opts _ hshape
  exact ⟨h1, h2, fun hi => le_antisymm h2 (removeCount_pos _ hi), h3, h4,
    (exec_recorded cli opts d).1⟩

/-- C9, as the code has it. `exec` itself never closes a stream; a stream is closed,
once, by the copy-in call it is handed to.  In every run the streams closed
before `exec` returns are exactly the streams handed to copy-in calls, in
order, and these are the first streams opened; when no call fails they are all
the streams opened.  So, the streams being distinct, a stream opened by a
copy-out is closed exactly once when the run reaches its copy-in and not at
all when the run ends before.  The trace is a true record of the calls made
on the client. -/
theorem streams_closed_by_copy_in {σ : Type} (cli : Client σ) (opts : options) (d : σ) :
    (exec (.ok opts) (.ok cli) (World.init d)).2.closed =
      injectedStreams (exec (.ok opts) (.ok cli) (World.init d)).2.trace ∧
    injectedStreams (exec (.ok opts) (.ok cli) (World.init d)).2.trace <+:
      openedStreams (exec (.ok opts) (.ok cli) (World.init d)).2.trace ∧
    (allOk (exec (.ok opts) (.ok cli) (World.init d)).2.trace →
      (exec (.ok opts) (.ok cli) (World.init d)).2.closed =
        openedStreams (exec (.ok opts) (.ok cli) (World.init d)).2.trace) ∧
    ((openedStreams (exec (.ok opts) (.ok cli) (World.init d)).2.trace).Nodup →
      ∀ r ∈ openedStreams (exec (.ok opts) (.ok cli) (World.init d)).2.trace,
        closeCount r (exec (.ok opts) (.ok cli) (World.init d)).2.closed =
          if r ∈ injectedStreams (exec (.ok opts) (.ok cli) (World.init d)).2.trace
          then 1 else 0) ∧
    replay cli d (exec (.ok opts) (.ok cli) (World.init d)).2.trace =
      some (exec (.ok opts) (.ok cli) (World.init d)).2.daemon := by
  have hshape : (∃ info contents body, contents.length = opts.CopyFiles.length ∧
        (exec (.ok opts) (.ok cli) (World.init d)).2.trace =
          successTrace opts info contents body) ∨
      (∃ info contents body pre call resp err, contents.length = opts.CopyFiles.length ∧
        pre ++ [⟨call, resp⟩] <+: successTrace opts info contents body ∧
        (exec (.ok opts) (.ok cli) (World.init d)).2.trace = pre ++ [⟨call, .error err⟩]) := by
    rcases exec_cases cli opts d with
      ⟨_, info, contents, body, hl, ht⟩ |
      ⟨_, info, contents, body, pre, call, resp, err, hl, hp, ht⟩
    · exact Or.inl ⟨info, contents, body, hl, ht⟩
    · exact Or.inr ⟨info, contents, body, pre, call, resp, err, hl, hp, ht⟩
  obtain ⟨hpre, hall⟩ := stream_facts opts _ hshape
  obtain ⟨hrep, hclosed⟩ := exec_recorded cli opts d
  refine ⟨hclosed, hpre, fun hok => by rw [hclosed]; exact hall hok, ?_, hrep⟩
  intro hnd r _
  rw [hclosed]
  exact List.count_eq_of_nodup (hnd.sublist hpre.sublist)

/-- C9 fails as stated: on a daemon where `web_newContainer` is left over, the run
opens stream 0 by a copy-out, fails at create, and returns with no stream
closed; stream 0 is not closed exactly once. -/
theorem streams_released_counterexample :
    (exec (.ok sampleOpts) (.ok Daemon.client) (World.init strandedDaemon)).1 = 1 ∧
    openedStreams (exec (.ok sampleOpts) (.ok Daemon.client) (World.init strandedDaemon)).2.trace
      = [0] ∧
    (exec (.ok sampleOpts) (.ok Daemon.client) (World.init strandedDaemon)).2.closed = [] ∧
    closeCount 0 (exec (.ok sampleOpts) (.ok Daemon.client) (World.init strandedDaemon)).2.closed
      = 0 ∧
    ¬ (∀ r ∈ openedStreams
          (exec (.ok sampleOpts) (.ok Daemon.client) (World.init strandedDaemon)).2.trace,
        closeCount r
          (exec (.ok sampleOpts) (.ok Daemon.client) (World.init strandedDaemon)).2.closed = 1) := by
  decide

/-- Witness of C1: on a daemon where `web_newContainer` is left over, create
fails; it is the last call, `exec` returns 1, and `web` is never stopped. -/
theorem exec_fail_fast_witness :
    (exec (.ok sampleOpts) (.ok Daemon.client) (World.init strandedDaemon)).2.trace =
      [⟨.ContainerInspect "web", .inspected sampleInfo⟩,
       ⟨.CopyFromContainer "web" "/etc/app.conf", .stream 0⟩] ++
      createEvent sampleOpts sampleInfo (.error (Daemon.nameConflict "/web_newContainer")) :: [] ∧
    (exec (.ok sampleOpts) (.ok Daemon.client) (World.init strandedDaemon)).1 ≠ 0 ∧
    (∀ e ∈ (exec (.ok sampleOpts) (.ok Daemon.client) (World.init strandedDaemon)).2.trace,
      ∀ cid, e.call ≠ .ContainerStop cid) ∧
    replay Daemon.client strandedDaemon
      ([⟨.ContainerInspect "web", .inspected sampleInfo⟩,
        ⟨.CopyFromContainer "web" "/etc/app.conf", .stream 0⟩] ++
       [createEvent sampleOpts sampleInfo (.error (Daemon.nameConflict "/web_newContainer"))]) =
      some (exec (.ok sampleOpts) (.ok Daemon.client) (World.init strandedDaemon)).2.daemon :=
  (fun h => ⟨by decide, h.2.1, h.2.2.1 ⟨_, _, _, _, rfl⟩, h.2.2.2 _ rfl⟩)
    (exec_fail_fast (.ok sampleOpts) (.ok Daemon.client) strandedDaemon
      [⟨.ContainerInspect "web", .inspected sampleInfo⟩,
       ⟨.CopyFromContainer "web" "/etc/app.conf", .stream 0⟩]
      (createEvent sampleOpts sampleInfo (.error (Daemon.nameConflict "/web_newContainer"))) []
      (by decide) (by decide))

/-- Witness of C2: the run of the sample options on the sample daemon. -/
theorem exec_success_order_witness :
    allOk (exec (.ok sampleOpts) (.ok Daemon.client) (World.init sampleDaemon)).2.trace ∧
    (exec (.ok sampleOpts) (.ok Daemon.client) (World.init sampleDaemon)).1 = 0 ∧
    (exec (.ok sampleOpts) (.ok Daemon.client) (World.init sampleDaemon)).2.trace =
      successTrace sampleOpts sampleInfo [0] { ID := "f", Warnings := [] } ∧
    replay Daemon.client sampleDaemon
      (exec (.ok sampleOpts) (.ok Daemon.client) (World.init sampleDaemon)).2.trace =
      some (exec (.ok sampleOpts) (.ok Daemon.client) (World.init sampleDaemon)).2.daemon :=
  ⟨by decide, (exec_success_order Daemon.client sampleOpts sampleDaemon (by decide)).1,
   by decide, (exec_success_order Daemon.client sampleOpts sampleDaemon (by decide)).2.2.2⟩

/-- C4, the code at `-f /etc/app.conf`: the file is read from `/etc`, and the one
copy-in call of the run is handed the destination `/`, not `/etc`:
`exec` passes `filepath.Dir(file)` and `copyFileToContainer` applies
`filepath.Dir` to it once more. -/
theorem copy_in_destination_run :
    filepath.Dir "/etc/app.conf" = "/etc" ∧
    (exec (.ok sampleOpts) (.ok Daemon.client) (World.init sampleDaemon)).1 = 0 ∧
    injectDestinations
      (exec (.ok sampleOpts) (.ok Daemon.client) (World.init sampleDaemon)).2.trace = ["/"] ∧
    filepath.Dir (filepath.Dir "/etc/app.conf") = "/" := by
  decide

/-- C5, the code when the container is given by its ID: the replacement is created
as `/web_newContainer`; the rename step renames `4f2a9c01` away and then looks
for `4f2a9c01_newContainer`, which does not exist; `exec` returns 1. -/
theorem create_rename_names_run :
    (exec (.ok sampleOptsByID) (.ok Daemon.client) (World.init sampleDaemon)).1 = 1 ∧
    createdNames
      (exec (.ok sampleOptsByID) (.ok Daemon.client) (World.init sampleDaemon)).2.trace =
      ["/web_newContainer"] ∧
    renameCalls
      (exec (.ok sampleOptsByID) (.ok Daemon.client) (World.init sampleDaemon)).2.trace =
      [("4f2a9c01", "4f2a9c01_oldContainer", false),
       ("4f2a9c01_newContainer", "4f2a9c01", true)] ∧
    (exec (.ok sampleOptsByID) (.ok Daemon.client) (World.init sampleDaemon)).2.stderr =
      ["No such container: 4f2a9c01_newContainer"] ∧
    (exec (.ok sampleOptsByID) (.ok Daemon.client)
        (World.init sampleDaemon)).2.daemon.containers.map
      (fun c => (c.ID, c.Name, c.Running)) =
      [("4f2a9c01", "/4f2a9c01_oldContainer", false), ("f", "/web_newContainer", true)] := by
  decide

/-- C10 fails as stated: on the reference daemon, where names are unique, the
run of the sample options (no `--rm`) succeeds, and a second run against the
same name fails at the first rename, `web_oldContainer` being still there. -/
theorem second_run_counterexample :
    (exec (.ok sampleOpts) (.ok Daemon.client) (World.init sampleDaemon)).1 = 0 ∧
    (exec (.ok sampleOpts) (.ok Daemon.client)
      (World.init (exec (.ok sampleOpts) (.ok Daemon.client)
        (World.init sampleDaemon)).2.daemon)).1 = 1 ∧
    (exec (.ok sampleOpts) (.ok Daemon.client)
      (World.init (exec (.ok sampleOpts) (.ok Daemon.client)
        (World.init sampleDaemon)).2.daemon)).2.stderr =
      ["Conflict. The container name /web_oldContainer is already in use"] ∧
    renameCalls (exec (.ok sampleOpts) (.ok Daemon.client)
      (World.init (exec (.ok sampleOpts) (.ok Daemon.client)
        (World.init sampleDaemon)).2.daemon)).2.trace =
      [("web", "web_oldContainer", true)] := by
  decide

/-- With `--rm`, where the replacement lacks the file: the first run returns 0 (its
copy-in went to `/`, leaving `/etc/app.conf` missing in the replacement), and
the second run fails at its copy-out, with nothing renamed or removed. -/
theorem second_run_rm_unreadable :
    (exec (.ok sampleOptsRm) (.ok Daemon.client) (World.init bareImageDaemon)).1 = 0 ∧
    (exec (.ok sampleOptsRm) (.ok Daemon.client)
      (World.init (exec (.ok sampleOptsRm) (.ok Daemon.client)
        (World.init bareImageDaemon)).2.daemon)).1 = 1 ∧
    (exec (.ok sampleOptsRm) (.ok Daemon.client)
      (World.init (exec (.ok sampleOptsRm) (.ok Daemon.client)
        (World.init bareImageDaemon)).2.daemon)).2.trace.map (fun ev => ev.call) =
      [.ContainerInspect "web", .CopyFromContainer "web" "/etc/app.conf"] ∧
    (exec (.ok sampleOptsRm) (.ok Daemon.client)
      (World.init (exec (.ok sampleOptsRm) (.ok Daemon.client)
        (World.init bareImageDaemon)).2.daemon)).2.stderr =
      ["Could not find the file /etc/app.conf in container"] := by
  decide

/-- C10, as the code has it. On the reference daemon, started in a well-formed
state and given a name that is no container ID, when a first run of `exec`
against the name returns 0: a second run against the same name returns 0
exactly when `--rm` was given and the daemon lets every path of `-f` be copied
out of the container the first run created; after the first run the name
designates that container; and without `--rm` a container named
`<name>_oldContainer` is still present and the second run returns 1, its last
call being, when its copy-outs succeed, the first rename, answered with a name
conflict. -/
theorem second_run_iff_removed (opts : options) (d : Daemon.State) (hwf : Daemon.WF d)
    (hkey : Daemon.NameNotID d opts.PosArgs.ContainerID)
    (h1 : (exec (.ok opts) (.ok Daemon.client) (World.init d)).1 = 0) :
    ((exec (.ok opts) (.ok Daemon.client)
        (World.init (exec (.ok opts) (.ok Daemon.client) (World.init d)).2.daemon)).1 = 0 ↔
      (opts.RemoveOldContainer = true ∧
        ∀ p ∈ opts.CopyFiles,
          Daemon.readable (exec (.ok opts) (.ok Daemon.client) (World.init d)).2.daemon
            (Daemon.genID d.nextID) p)) ∧
    (Daemon.find (exec (.ok opts) (.ok Daemon.client) (World.init d)).2.daemon
        opts.PosArgs.ContainerID).map (fun c => c.ID) = some (Daemon.genID d.nextID) ∧
    (opts.RemoveOldContainer = false →
      (∃ c ∈ (exec (.ok opts) (.ok Daemon.client) (World.init d)).2.daemon.containers,
        c.Name = Daemon.normName opts.PosArgs.ContainerID ++ oldContainerSuffix) ∧
      (exec (.ok opts) (.ok Daemon.client)
        (World.init (exec (.ok opts) (.ok Daemon.client) (World.init d)).2.daemon)).1 = 1 ∧
      ((∀ p ∈ opts.CopyFiles,
          Daemon.readable (exec (.ok opts) (.ok Daemon.client) (World.init d)).2.daemon
            (Daemon.genID d.nextID) p) →
        (exec (.ok opts) (.ok Daemon.client)
          (World.init (exec (.ok opts) (.ok Daemon.client)
            (World.init d)).2.daemon)).2.trace.getLast? =
          some ⟨.ContainerRename opts.PosArgs.ContainerID
              (opts.PosArgs.ContainerID ++ oldContainerSuffix),
            .error (Daemon.nameConflict (opts.PosArgs.ContainerID ++ oldContainerSuffix))⟩)) :=
  Daemon.second_run opts d hwf hkey h1

/-- Witness of C10: the sample daemon is well-formed, `web` is no container ID, the
run with `--rm` succeeds, the path of `-f` can be copied out of the replacement,
and the second run succeeds. -/
theorem second_run_iff_removed_witness :
    Daemon.WF sampleDaemon ∧ Daemon.NameNotID sampleDaemon "web" ∧
    (exec (.ok sampleOptsRm) (.ok Daemon.client) (World.init sampleDaemon)).1 = 0 ∧
    (exec (.ok sampleOptsRm) (.ok Daemon.client)
      (World.init (exec (.ok sampleOptsRm) (.ok Daemon.client)
        (World.init sampleDaemon)).2.daemon)).1 = 0 :=
  (fun (hwf : Daemon.WF sampleDaemon) (hkey : Daemon.NameNotID sampleDaemon "web") =>
    ⟨hwf, hkey, by decide,
      ((second_run_iff_removed sampleOptsRm sampleDaemon hwf hkey (by decide)).1).2
        ⟨rfl, by decide⟩⟩)
    ⟨by decide, by decide, fun c hc k _ => by
      simp only [sampleDaemon, List.mem_singleton] at hc
      subst hc
      exact fun e => Daemon.genID_ne_of_mem _ '4' (by decide) (by decide) k e.symm⟩
    ⟨fun k => Daemon.genID_ne_of_mem _ 'w' (by decide) (by decide) k, fun c hc => by
      simp only [sampleDaemon, List.mem_singleton] at hc
      subst hc
      decide⟩

end ContainerUp
